import Mathlib

/-!
Verification development for the checkers engine in `src/checkers` and the two
search agents in `src/bots` (minimax/alpha-beta in `checkersbot.py`, MCTS in
`mctsbot.py`).

The board, move generation, move application, draw detection, the heuristic
evaluator, the alpha-beta search and the MCTS statistics update are translated
from `src/checkers/board.py`, `src/checkers/constants.py`,
`src/bots/checkersbot.py` and `src/bots/mctsbot.py`.

Machine integers are modelled as `Int` (Python integers are unbounded, so no
wrap-around is needed); Python floats appearing in the evaluator are modelled
as `Rat`, which is exact for every operation the evaluator performs (sums of
integers and integer halves); fallible code returns `Option`/`Except`.
-/

namespace Checkers

/-- Translation of the `Player` enumeration of `src/checkers/player.py`. -/
inductive Player where
  | white
  | black
deriving DecidableEq, Repr

/-- Translation of `Player.other` of `src/checkers/player.py`. -/
def Player.other : Player → Player
  | Player.white => Player.black
  | Player.black => Player.white

/-- A board coordinate `(row, col)`, as in `src/checkers/types.py`. -/
abbrev Position := Int × Int

/-- Modelled from the spec: `Piece: { position: Position, side: Side, is_king: bool }`.
The file `src/checkers/piece.py` in the snapshot defines an incompatible
`Piece.__init__(self, row, col, player)` storing `row`/`col` fields, but every
call site in `src/checkers/board.py` constructs `Piece((i, j), player)` with a
position tuple and reads/writes `piece.position`, so the `Piece` class that
`board.py` actually uses (the one the spec's data-model section describes) is
missing from the snapshot and is modelled here from the spec. A piece is not a
king by default. -/
structure Piece where
  position : Position
  player : Player
  king : Bool
deriving DecidableEq, Repr

/-- A move `[(from_row, from_col), (to_row, to_col), captured_pieces]`, as in
`src/checkers/types.py` and `Board.get_all_valid_moves`. -/
structure Move where
  src : Position
  dest : Position
  captured : List Piece
deriving DecidableEq, Repr

instance : Inhabited Move := ⟨⟨(0, 0), (0, 0), []⟩⟩

/-- The grid `Board.board`: each cell holds at most one piece, `Option.none`
represents an empty cell.  The Python grid is an 8x8 list of lists; it is
modelled as a total function that the embedded operations only query at
in-range coordinates. -/
abbrev Grid := Position → Option Piece

/-- `BOARD_DIMENSION` of `src/checkers/constants.py`. -/
def BOARD_DIMENSION : Int := 8

/-- `ROWS_OF_PIECES` of `src/checkers/constants.py`. -/
def ROWS_OF_PIECES : Int := 3

/-- `MAX_MOVES_WITHOUT_CAPTURE` of `src/checkers/constants.py`. -/
def MAX_MOVES_WITHOUT_CAPTURE : Nat := 50

/-- Translation of the `Board` class attributes of `src/checkers/board.py`:
the grid, the four cached counters and the move history. -/
structure Board where
  grid : Grid
  num_white_pieces : Int
  num_black_pieces : Int
  num_white_kings : Int
  num_black_kings : Int
  moves : List Move

/-- The 64 in-range cells, enumerated in the row-major order used by
`Board.get_all_pieces` (`for row in range(8): for col in range(8)`). -/
def cells : List Position :=
  (List.range 8).flatMap
    (fun r : Nat => (List.range 8).map (fun c : Nat => (((r : Nat) : Int), ((c : Nat) : Int))))

/-- The cell scan of `Board.get_all_pieces` as a function of the grid:
collect, in row-major order, every piece owned by `player`. -/
def gridPieces (g : Grid) (player : Player) : List Piece :=
  cells.filterMap (fun pos =>
    match g pos with
    | some piece => if piece.player = player then some piece else Option.none
    | Option.none => Option.none)

/-- Translation of `Board.get_all_pieces` of `src/checkers/board.py`. -/
def get_all_pieces (b : Board) (player : Player) : List Piece :=
  gridPieces b.grid player

/-- Translation of `Board.get_piece` of `src/checkers/board.py`. -/
def get_piece (b : Board) (position : Position) : Option Piece :=
  b.grid position

/-- Translation of `Board.__init__` of `src/checkers/board.py` for a call with
an explicit (non-empty) `board` argument: the grid is adopted, the per-side
piece counts are recomputed with `get_all_pieces`, the king counters keep
their initial value 0 and the history starts empty. -/
def Board.ofGrid (g : Grid) : Board :=
  { grid := g
    num_black_pieces := ((gridPieces g Player.black).length : Int)
    num_white_pieces := ((gridPieces g Player.white).length : Int)
    num_white_kings := 0
    num_black_kings := 0
    moves := [] }

/-- Translation of `Board._initiate_board` of `src/checkers/board.py`: the
first `ROWS_OF_PIECES` rows get black pieces on cells with `(col + row) % 2 != 0`,
the last `ROWS_OF_PIECES` rows get white pieces on the same parity, everything
else is empty. -/
def initialGrid : Grid := fun pos =>
  if 0 ≤ pos.1 ∧ pos.1 < BOARD_DIMENSION ∧ 0 ≤ pos.2 ∧ pos.2 < BOARD_DIMENSION then
    if pos.1 < ROWS_OF_PIECES then
      if (pos.2 + pos.1) % 2 ≠ 0 then some ⟨pos, Player.black, false⟩ else Option.none
    else if pos.1 ≥ BOARD_DIMENSION - ROWS_OF_PIECES then
      if (pos.2 + pos.1) % 2 ≠ 0 then some ⟨pos, Player.white, false⟩ else Option.none
    else Option.none
  else Option.none

/-- Translation of `Board.__init__` of `src/checkers/board.py` for the
no-argument call (`new_game_state`): `_initiate_board` increments a side's
piece counter once per piece it appends, so each counter ends up equal to the
number of that side's pieces in the grid it produced; the king counters stay 0
and the history starts empty. -/
def new_board : Board :=
  { grid := initialGrid
    num_black_pieces := ((gridPieces initialGrid Player.black).length : Int)
    num_white_pieces := ((gridPieces initialGrid Player.white).length : Int)
    num_white_kings := 0
    num_black_kings := 0
    moves := [] }

/-- The dictionary `moves` built by the traversal helpers, with Python's
insertion-ordered dict semantics: a key keeps its first position, a repeated
insertion overwrites the value in place. -/
abbrev MoveDict := List (Position × List Piece)

/-- Python dict assignment `d[k] = v`: overwrite in place if the key exists,
otherwise append. -/
def dictInsert : MoveDict → Position → List Piece → MoveDict
  | [], k, v => [(k, v)]
  | (k0, v0) :: rest, k, v =>
    if k0 = k then (k0, v) :: rest else (k0, v0) :: dictInsert rest k v

/-- Python `d.update(d2)`: insert every entry of `d2` into `d` in order. -/
def dictUpdate (d : MoveDict) (d2 : MoveDict) : MoveDict :=
  d2.foldl (fun acc kv => dictInsert acc kv.1 kv.2) d

/-- Python `range(start, stop, step)` for `step = 1` or `step = -1`. -/
def rangeList (start stop step : Int) : List Int :=
  if step = 1 then (List.range (stop - start).toNat).map (fun k : Nat => start + (k : Int))
  else (List.range (start - stop).toNat).map (fun k : Nat => start - (k : Int))

/-- The body shared by `Board._traverse_left` and `Board._traverse_right` of
`src/checkers/board.py`, which differ only in the column guard (`left < 0`
versus `right >= BOARD_DIMENSION`), the per-iteration column step (−1 versus
+1) and which side `isLeft` records; both recurse into `_traverse_left` with
column − 1 and `_traverse_right` with column + 1 after a jump.  The `rows`
argument is the `range(start, stop, step)` row list still to visit, `last`
the piece passed over in the previous iteration, and `moves` starts empty and
is only filled in the iteration that reaches an empty cell (every branch of
that iteration breaks the loop).  `fuel` decreases at every recursive call;
each loop level visits at most two rows and each chained capture strictly
advances the row, so the top-level fuel 64 is never exhausted on the 8x8
board. -/
def travGo (g : Grid) (player : Player) : Nat → Bool → Int → List Piece →
    List Int → Int → List Piece → MoveDict
  | 0, _, _, _, _, _, _ => []
  | _ + 1, _, _, _, [], _, _ => []
  | fuel + 1, isLeft, step, skipped, r :: rs, col, last =>
    if (if isLeft then col < 0 else col ≥ BOARD_DIMENSION) then []
    else
      match g (r, col) with
      | Option.none =>
        if skipped ≠ [] ∧ last = [] then []
        else
          let caps := if skipped ≠ [] then last ++ skipped else last
          let m1 : MoveDict := [((r, col), caps)]
          if last ≠ [] then
            let row := if step = -1 then max (r - 3) 0 else min (r + 3) BOARD_DIMENSION
            let m2 := dictUpdate m1
              (travGo g player fuel true step last (rangeList (r + step) row step) (col - 1) [])
            dictUpdate m2
              (travGo g player fuel false step last (rangeList (r + step) row step) (col + 1) [])
          else m1
      | some cur =>
        if cur.player = player then []
        else travGo g player fuel isLeft step skipped rs (if isLeft then col - 1 else col + 1) [cur]

/-- Translation of `Board._traverse_left` of `src/checkers/board.py` (see
`travGo`). -/
def traverse_left (g : Grid) (player : Player) (fuel : Nat)
    (start stop step left : Int) (skipped : List Piece) : MoveDict :=
  travGo g player fuel true step skipped (rangeList start stop step) left []

/-- Translation of `Board._traverse_right` of `src/checkers/board.py` (see
`travGo`). -/
def traverse_right (g : Grid) (player : Player) (fuel : Nat)
    (start stop step right : Int) (skipped : List Piece) : MoveDict :=
  travGo g player fuel false step skipped (rangeList start stop step) right []

/-- Translation of `Board._get_valid_moves` of `src/checkers/board.py`: white
pieces and kings scan upward (`step = -1`), black pieces and kings scan
downward (`step = 1`); the four traversals start one row away and stop at most
three rows away, clipped to the board. -/
def get_valid_moves (b : Board) (piece : Piece) : MoveDict :=
  let left := piece.position.2 - 1
  let right := piece.position.2 + 1
  let row := piece.position.1
  let m0 : MoveDict := []
  let m1 :=
    if piece.player = Player.white ∨ piece.king then
      dictUpdate
        (dictUpdate m0 (traverse_left b.grid piece.player 64 (row - 1) (max (row - 3) (-1)) (-1) left []))
        (traverse_right b.grid piece.player 64 (row - 1) (max (row - 3) (-1)) (-1) right [])
    else m0
  if piece.player = Player.black ∨ piece.king then
    dictUpdate
      (dictUpdate m1 (traverse_left b.grid piece.player 64 (row + 1) (min (row + 3) BOARD_DIMENSION) 1 left []))
      (traverse_right b.grid piece.player 64 (row + 1) (min (row + 3) BOARD_DIMENSION) 1 right [])
  else m1

/-- The move list built by the loop of `Board.get_all_valid_moves` before the
forced-capture filter: for every piece of `player` (in `get_all_pieces` order)
and every entry of its valid-move dict, the move
`[(piece.position), destination, skipped]`. -/
def generatedMoves (b : Board) (player : Player) : List Move :=
  (get_all_pieces b player).flatMap (fun piece =>
    (get_valid_moves b piece).map (fun e => ⟨piece.position, e.1, e.2⟩))

/-- Translation of `Board.get_all_valid_moves` of `src/checkers/board.py`:
`capture_move_exists` is set while appending whenever a move's skip list is
non-empty (`len(skip) > 0`), and in that case only the moves with
`len(move[2]) != 0` are kept. -/
def get_all_valid_moves (b : Board) (player : Player) : List Move :=
  let moves := generatedMoves b player
  if moves.any (fun m => decide (m.captured.length > 0)) then
    moves.filter (fun m => decide (m.captured.length ≠ 0))
  else moves

/-- Pointwise grid update, modelling `self.board[r][c] = v`. -/
def updateG (g : Grid) (pos : Position) (v : Option Piece) : Grid :=
  fun p => if p = pos then v else g p

/-- One iteration of the loop of `Board.remove` of `src/checkers/board.py`:
clear the cell at the piece's recorded position and decrement the counters
selected by the piece's own attributes (whether or not the grid actually held
that piece there). -/
def removeOne (b : Board) (q : Piece) : Board :=
  let g := updateG b.grid q.position Option.none
  if q.player = Player.white then
    { b with
      grid := g
      num_white_pieces := b.num_white_pieces - 1
      num_white_kings := if q.king then b.num_white_kings - 1 else b.num_white_kings }
  else
    { b with
      grid := g
      num_black_pieces := b.num_black_pieces - 1
      num_black_kings := if q.king then b.num_black_kings - 1 else b.num_black_kings }

/-- Translation of `Board.remove` of `src/checkers/board.py`. -/
def removeAll (b : Board) (pieces : List Piece) : Board :=
  pieces.foldl removeOne b

/-- Translation of `Board.make_move` of `src/checkers/board.py`.  Returns
`Option.none` exactly when the source cell is empty, where Python's
`piece = self.get_piece(move[0])` yields `None` and the following
`piece.position` raises `AttributeError`.  When the source cell holds a piece
the method runs to completion: it clears the cell at the piece's recorded
position, stores the piece (with its position updated) at the destination,
removes the claimed captures, then promotes.  Python mutates one piece object
aliased from the destination cell; here the promotion rewrites the
destination cell when it still holds the moved piece, which coincides with the
Python behaviour whenever no two distinct cells hold equal piece values (true
in particular on every grid whose pieces record their own cell). -/
def make_move (b : Board) (m : Move) : Option Board :=
  match get_piece b m.src with
  | Option.none => Option.none
  | some piece =>
    let g1 := updateG b.grid piece.position Option.none
    let moved : Piece := { piece with position := m.dest }
    let g2 := updateG g1 m.dest (some moved)
    let b2 := removeAll { b with grid := g2 } m.captured
    let b3 :=
      if moved.player = Player.black ∧ moved.position.1 = BOARD_DIMENSION - 1 ∧ moved.king = false then
        { b2 with
          grid := if b2.grid m.dest = some moved then
                    updateG b2.grid m.dest (some { moved with king := true })
                  else b2.grid
          num_black_kings := b2.num_black_kings + 1 }
      else if moved.player = Player.white ∧ moved.position.1 = 0 ∧ moved.king = false then
        { b2 with
          grid := if b2.grid m.dest = some moved then
                    updateG b2.grid m.dest (some { moved with king := true })
                  else b2.grid
          num_white_kings := b2.num_white_kings + 1 }
      else b2
    some { b3 with moves := b3.moves ++ [m] }

/-- Translation of `Board.last_move` of `src/checkers/board.py`. -/
def last_move (b : Board) : Option Move :=
  if b.moves.length > 0 then some (b.moves.getLast!) else Option.none

/-- Python negative indexing `self.moves[-i]` as used by `passive_game`
(where `i` ranges over `range(50)`, so `i = 0` denotes `moves[0]`, the first
recorded move, and `i ≥ 1` denotes the `i`-th move from the end). -/
def pyNegIdx (ms : List Move) (i : Nat) : Move :=
  ms.getD (if i = 0 then 0 else ms.length - i) default

/-- Translation of `Board.passive_game` of `src/checkers/board.py`: with at
least `MAX_MOVES_WITHOUT_CAPTURE` recorded moves, the loop
`for move in range(MAX_MOVES_WITHOUT_CAPTURE)` clears the flag as soon as
`self.moves[-move][2]` is non-empty (the early `break` only short-circuits). -/
def passive_game (b : Board) : Bool :=
  decide (b.moves.length ≥ MAX_MOVES_WITHOUT_CAPTURE) &&
    (List.range MAX_MOVES_WITHOUT_CAPTURE).all (fun i => (pyNegIdx b.moves i).captured.isEmpty)

/-- Translation of `Board.repetition_happened` of `src/checkers/board.py`:
with at least 12 recorded moves, compare the origins and destinations of the
moves at offsets (-1, -5, -9), (-2, -6, -10), (-3, -7, -11) and (-4, -8, -12). -/
def repetition_happened (b : Board) : Bool :=
  let m := fun i : Nat => b.moves.getD (b.moves.length - i) default
  decide (b.moves.length ≥ 12) &&
    (decide ((m 1).src = (m 5).src ∧ (m 5).src = (m 9).src) &&
     decide ((m 1).dest = (m 5).dest ∧ (m 5).dest = (m 9).dest) &&
     decide ((m 2).src = (m 6).src ∧ (m 6).src = (m 10).src) &&
     decide ((m 2).dest = (m 6).dest ∧ (m 6).dest = (m 10).dest) &&
     decide ((m 3).src = (m 7).src ∧ (m 7).src = (m 11).src) &&
     decide ((m 3).dest = (m 7).dest ∧ (m 7).dest = (m 11).dest) &&
     decide ((m 4).src = (m 8).src ∧ (m 8).src = (m 12).src) &&
     decide ((m 4).dest = (m 8).dest ∧ (m 8).dest = (m 12).dest))

/-- The value returned by `Board.has_winner`: a `Player`, the string `"Tie"`,
or `None`. -/
inductive Winner where
  | winner (p : Player)
  | tie
  | noWinner
deriving DecidableEq, Repr

/-- Translation of `Board.has_winner` of `src/checkers/board.py`. -/
def has_winner (b : Board) : Winner :=
  if b.num_black_pieces = 0 ∨ (get_all_valid_moves b Player.black).length = 0 then
    Winner.winner Player.white
  else if b.num_white_pieces = 0 ∨ (get_all_valid_moves b Player.white).length = 0 then
    Winner.winner Player.black
  else if repetition_happened b = true ∨ passive_game b = true then
    Winner.tie
  else Winner.noWinner

/-! ## Demonstration boards used by witnesses and counterexamples -/

/-- A grid with a forced capture: the white piece at (5,2) can jump the black
piece at (4,3), landing on (3,4). -/
def captureDemoGrid : Grid := fun p =>
  if p = ((5 : Int), (2 : Int)) then some ⟨(5, 2), Player.white, false⟩
  else if p = ((4 : Int), (3 : Int)) then some ⟨(4, 3), Player.black, false⟩
  else Option.none

/-- The board built from `captureDemoGrid`. -/
def captureDemoBoard : Board := Board.ofGrid captureDemoGrid

/-- The empty grid. -/
def emptyGrid : Grid := fun _ => Option.none

/-- A grid whose only piece is a white king, for exercising the constructor's
treatment of king counters. -/
def kingsDemoGrid : Grid := fun p =>
  if p = ((4 : Int), (4 : Int)) then some ⟨(4, 4), Player.white, true⟩ else Option.none

/-- A grid with one white piece at (5,0) and one black piece at (0,1). -/
def c4Grid : Grid := fun p =>
  if p = ((5 : Int), (0 : Int)) then some ⟨(5, 0), Player.white, false⟩
  else if p = ((0 : Int), (1 : Int)) then some ⟨(0, 1), Player.black, false⟩
  else Option.none

/-- The board built from `c4Grid` (cached counts: one white, one black). -/
def c4Board : Board := Board.ofGrid c4Grid

/-- An illegal move on `c4Board`: the white piece at (5,0) steps to (4,1)
while claiming to capture a black piece at (2,3) that is not on the grid. -/
def c4Move : Move := ⟨(5, 0), (4, 1), [⟨(2, 3), Player.black, false⟩]⟩

/-- The board `make_move` produces for the inconsistent `c4Move`. -/
def c4After : Board := (make_move c4Board c4Move).getD c4Board

/-- A move with no captures. -/
def quietMove : Move := ⟨(0, 0), (0, 0), []⟩

/-- A move whose captured list is non-empty. -/
def captureMove : Move := ⟨(0, 0), (0, 0), [⟨(3, 3), Player.white, false⟩]⟩

/-- A board with 51 recorded moves that are all capture-free except the one at
index 1, which is the 50th move from the end (the oldest move of the last-50
window) and has a non-empty captured list. -/
def c5Board : Board :=
  { grid := fun _ => Option.none
    num_white_pieces := 0
    num_black_pieces := 0
    num_white_kings := 0
    num_black_kings := 0
    moves := (List.replicate 51 quietMove).set 1 captureMove }

/-- A board with exactly 50 recorded capture-free moves. -/
def c5QuietBoard : Board :=
  { grid := fun _ => Option.none
    num_white_pieces := 0
    num_black_pieces := 0
    num_white_kings := 0
    num_black_kings := 0
    moves := List.replicate 50 quietMove }

/-- Four distinct moves forming the cycle repeated in `c6Board`. -/
def c6CycleMoves : List Move :=
  [⟨(2, 1), (3, 2), []⟩, ⟨(5, 2), (4, 3), []⟩, ⟨(3, 2), (2, 1), []⟩, ⟨(4, 3), (5, 2), []⟩]

/-- A board whose 12 recorded moves are three repetitions of the same 4-move
cycle. -/
def c6Board : Board :=
  { grid := fun _ => Option.none
    num_white_pieces := 0
    num_black_pieces := 0
    num_white_kings := 0
    num_black_kings := 0
    moves := c6CycleMoves ++ c6CycleMoves ++ c6CycleMoves }

/-! ## Claims about move generation, the constructors and move application -/

/-- C1: for every board and every side, if any generated move has a non-empty
captured list then `get_all_valid_moves` returns exactly the capturing moves
(every non-capturing move is filtered out), and otherwise it returns the
generated moves unchanged. -/
theorem forced_capture_filter (b : Board) (p : Player) :
    ((∃ m ∈ generatedMoves b p, m.captured ≠ []) →
      get_all_valid_moves b p =
        (generatedMoves b p).filter (fun m => decide (m.captured.length ≠ 0))) ∧
    ((∀ m ∈ generatedMoves b p, m.captured = []) →
      get_all_valid_moves b p = generatedMoves b p) := by
  constructor
  · intro h
    obtain ⟨m, hm, hc⟩ := h
    have hany : (generatedMoves b p).any (fun m => decide (m.captured.length > 0)) = true := by
      rw [List.any_eq_true]
      exact ⟨m, hm, by simpa [List.length_pos] using hc⟩
    unfold get_all_valid_moves
    simp only [hany, if_true]
  · intro h
    have hany : (generatedMoves b p).any (fun m => decide (m.captured.length > 0)) = false := by
      rw [List.any_eq_false]
      intro m hm
      simp [h m hm]
    unfold get_all_valid_moves
    simp only [hany, Bool.false_eq_true, if_false]

/-- Witness for C1: on `captureDemoBoard` a capturing move exists for white,
and the returned move set is exactly the capture filter of the generated
moves. -/
theorem forced_capture_filter_witness :
    (∃ m ∈ generatedMoves captureDemoBoard Player.white, m.captured ≠ []) ∧
    get_all_valid_moves captureDemoBoard Player.white =
      (generatedMoves captureDemoBoard Player.white).filter
        (fun m => decide (m.captured.length ≠ 0)) :=
  ⟨by decide, (forced_capture_filter captureDemoBoard Player.white).1 (by decide)⟩

/-- C2: the freshly constructed board has black pieces on the odd cells of the
first three rows, white pieces on the odd cells of the last three rows,
nothing anywhere else, cached counts of 12 pieces per side with zero kings,
and an empty history.  (The `Piece` the constructor stores is modelled from
the spec, because `src/checkers/piece.py` declares a `(row, col, player)`
constructor incompatible with every `Piece((i, j), player)` call in
`board.py`.) -/
theorem initial_board_layout :
    (∀ pos ∈ cells,
      (pos.1 < 3 ∧ (pos.1 + pos.2) % 2 = 1 →
        new_board.grid pos = some ⟨pos, Player.black, false⟩) ∧
      (5 ≤ pos.1 ∧ (pos.1 + pos.2) % 2 = 1 →
        new_board.grid pos = some ⟨pos, Player.white, false⟩) ∧
      ((3 ≤ pos.1 ∧ pos.1 < 5) ∨ (pos.1 + pos.2) % 2 = 0 →
        new_board.grid pos = Option.none)) ∧
    new_board.num_black_pieces = 12 ∧ new_board.num_white_pieces = 12 ∧
    new_board.num_black_kings = 0 ∧ new_board.num_white_kings = 0 ∧
    new_board.moves = [] := by decide

/-- Witness for C2 at three concrete cells: a black man on (0,1), a white man
on (7,0), an empty middle cell (3,1). -/
theorem initial_board_layout_witness :
    new_board.grid (0, 1) = some ⟨(0, 1), Player.black, false⟩ ∧
    new_board.grid (7, 0) = some ⟨(7, 0), Player.white, false⟩ ∧
    new_board.grid (3, 1) = Option.none :=
  ⟨(initial_board_layout.1 (0, 1) (by decide)).1 (by decide),
   (initial_board_layout.1 (7, 0) (by decide)).2.1 (by decide),
   (initial_board_layout.1 (3, 1) (by decide)).2.2 (by decide)⟩

/-- C10: constructing a board from an explicit grid recomputes only the
per-side piece counts from the grid; the king counters stay 0 no matter how
many kings the grid contains — exhibited on `kingsDemoGrid`, which holds a
king, while the constructed board still records zero white kings. -/
theorem ofGrid_never_recomputes_kings :
    (∀ g : Grid,
      (Board.ofGrid g).num_white_kings = 0 ∧
      (Board.ofGrid g).num_black_kings = 0 ∧
      (Board.ofGrid g).num_white_pieces = ((gridPieces g Player.white).length : Int) ∧
      (Board.ofGrid g).num_black_pieces = ((gridPieces g Player.black).length : Int) ∧
      (Board.ofGrid g).grid = g) ∧
    (cells.countP (fun c =>
      match kingsDemoGrid c with
      | some q => q.king
      | Option.none => false) = 1 ∧
     (Board.ofGrid kingsDemoGrid).num_white_kings = 0) :=
  ⟨fun _ => ⟨rfl, rfl, rfl, rfl, rfl⟩, by decide, rfl⟩

/-- Counterexample for C4: `make_move` applied to `c4Move`, whose captured
list names a black piece that is not on the grid, completes without any error
(`isSome`) and leaves the cached black count at 0 while the grid still holds
one black piece — a silent corruption instead of the loud failure the claim
demands. -/
theorem make_move_silent_corruption :
    (make_move c4Board c4Move).isSome = true ∧
    c4After.num_black_pieces = 0 ∧
    (get_all_pieces c4After Player.black).length = 1 := by decide

/-- C4 (amended): `make_move` fails (Python: `AttributeError` on
`None.position`) exactly when the source cell is empty; whenever the source
cell holds a piece — of either side — it completes without error, even when
the captured list is inconsistent with the grid, in which case the cached
counts silently diverge from the grid scan. -/
theorem make_move_fails_iff_src_empty (b : Board) (m : Move) :
    make_move b m = Option.none ↔ b.grid m.src = Option.none := by
  cases h : b.grid m.src with
  | none => simp [make_move, get_piece, h]
  | some piece => simp [make_move, get_piece, h]

/-- Witness for C4 (amended): on the empty board `make_move` fails. -/
theorem make_move_fails_iff_src_empty_witness :
    make_move (Board.ofGrid emptyGrid) quietMove = Option.none :=
  (make_move_fails_iff_src_empty (Board.ofGrid emptyGrid) quietMove).mpr rfl

/-- Counterexample for C5: `c5Board` has 51 recorded moves and its 50th move
from the end (index `length - 50`) has a non-empty captured list, so by the
claim the passive-game draw must not fire — yet `passive_game` returns
`true`, because the loop index `-move` with `move = 0` inspects `moves[0]`
instead of the 50th move from the end. -/
theorem passive_game_ignores_capture_in_window :
    passive_game c5Board = true ∧
    c5Board.moves.length = 51 ∧
    (c5Board.moves.getD (c5Board.moves.length - 50) default).captured ≠ [] := by decide

/-- C5 (amended): for histories of length ≥ `MAX_MOVES_WITHOUT_CAPTURE`
(default 50) the passive-game draw fires iff the FIRST recorded move and the
last 49 moves all have empty captured lists (the 50th-from-last move is
examined only when the history has exactly 50 moves, where it coincides with
the first); shorter histories never trigger it. -/
theorem passive_game_iff (b : Board) :
    passive_game b = true ↔
      (MAX_MOVES_WITHOUT_CAPTURE ≤ b.moves.length ∧
       (b.moves.getD 0 default).captured = [] ∧
       ∀ i, i < MAX_MOVES_WITHOUT_CAPTURE → 1 ≤ i →
         (b.moves.getD (b.moves.length - i) default).captured = []) := by
  unfold passive_game pyNegIdx MAX_MOVES_WITHOUT_CAPTURE
  simp only [Bool.and_eq_true, decide_eq_true_eq, List.all_eq_true, List.mem_range,
    ge_iff_le, List.isEmpty_iff]
  constructor
  · rintro ⟨hlen, h⟩
    refine ⟨hlen, ?_, ?_⟩
    · simpa using h 0 (by omega)
    · intro i hi h1
      have hne : ¬ i = 0 := by omega
      simpa [hne] using h i hi
  · rintro ⟨hlen, h0, h⟩
    refine ⟨hlen, ?_⟩
    intro i hi
    by_cases hz : i = 0
    · subst hz; simpa using h0
    · simpa [hz] using h i hi (by omega)

/-- Witness for C5 (amended): a board whose 50 recorded moves are all
capture-free triggers the passive-game draw. -/
theorem passive_game_iff_witness :
    passive_game c5QuietBoard = true :=
  (passive_game_iff c5QuietBoard).mpr (by decide)

/-- C6: the repetition draw fires exactly when the history has at least 12
moves and, for each distance i = 1..4 from the end, the moves at distances i,
i+4 and i+8 agree pairwise on origin and destination — i.e. the last 12 moves
are three repeats of the same 4-move sub-sequence (compared on (from, to), as
the spec defines); a single differing (from, to) anywhere in that window
prevents the draw. -/
theorem repetition_iff (b : Board) :
    repetition_happened b = true ↔
      (12 ≤ b.moves.length ∧
       ∀ i, i ≤ 4 → 1 ≤ i →
         ((b.moves.getD (b.moves.length - i) default).src =
            (b.moves.getD (b.moves.length - (i + 4)) default).src ∧
          (b.moves.getD (b.moves.length - (i + 4)) default).src =
            (b.moves.getD (b.moves.length - (i + 8)) default).src ∧
          (b.moves.getD (b.moves.length - i) default).dest =
            (b.moves.getD (b.moves.length - (i + 4)) default).dest ∧
          (b.moves.getD (b.moves.length - (i + 4)) default).dest =
            (b.moves.getD (b.moves.length - (i + 8)) default).dest)) := by
  unfold repetition_happened
  simp only [Bool.and_eq_true, decide_eq_true_eq, ge_iff_le]
  constructor
  · intro hx
    obtain ⟨hlen, hx⟩ := hx
    refine ⟨hlen, ?_⟩
    intro i hi h1
    interval_cases i
    · exact ⟨hx.1.1.1.1.1.1.1.1, hx.1.1.1.1.1.1.1.2, hx.1.1.1.1.1.1.2.1, hx.1.1.1.1.1.1.2.2⟩
    · exact ⟨hx.1.1.1.1.1.2.1, hx.1.1.1.1.1.2.2, hx.1.1.1.1.2.1, hx.1.1.1.1.2.2⟩
    · exact ⟨hx.1.1.1.2.1, hx.1.1.1.2.2, hx.1.1.2.1, hx.1.1.2.2⟩
    · exact ⟨hx.1.2.1, hx.1.2.2, hx.2.1, hx.2.2⟩
  · rintro ⟨hlen, h⟩
    obtain ⟨g1s, g1s', g1d, g1d'⟩ := h 1 (by omega) (by omega)
    obtain ⟨g2s, g2s', g2d, g2d'⟩ := h 2 (by omega) (by omega)
    obtain ⟨g3s, g3s', g3d, g3d'⟩ := h 3 (by omega) (by omega)
    obtain ⟨g4s, g4s', g4d, g4d'⟩ := h 4 (by omega) (by omega)
    exact ⟨hlen, ⟨⟨⟨⟨⟨⟨⟨⟨g1s, g1s'⟩, ⟨g1d, g1d'⟩⟩, ⟨g2s, g2s'⟩⟩, ⟨g2d, g2d'⟩⟩,
      ⟨g3s, g3s'⟩⟩, ⟨g3d, g3d'⟩⟩, ⟨g4s, g4s'⟩⟩, ⟨g4d, g4d'⟩⟩⟩

/-- Witness for C6: a history of three identical 4-move cycles fires the
repetition draw. -/
theorem repetition_iff_witness :
    repetition_happened c6Board = true :=
  (repetition_iff c6Board).mpr (by decide)

/-! ## The heuristic evaluator (`Board.evaluate` and helpers) -/

/-- `POSITIONAL_EVALUATION` of `src/checkers/constants.py`. -/
def POSITIONAL_EVALUATION : List (List Int) :=
  [[0, 0, 0, 0, 0, 0, 0, 0],
   [2, 0, 2, 0, 2, 0, 2, 0],
   [0, 0, 0, 1, 0, 1, 0, 0],
   [0, 0, 1, 0, 1, 0, 0, 0],
   [0, 0, 0, 1, 0, 1, 0, 0],
   [0, 0, 0, 0, 0, 0, 0, 0],
   [0, 0, 0, 0, 0, 0, 0, 0],
   [3, 0, 3, 0, 3, 0, 3, 0]]

/-- The table lookup `POSITIONAL_EVALUATION[r][c]` (evaluated only at
in-range indices by the callers below). -/
def posTable (r c : Int) : Int :=
  (POSITIONAL_EVALUATION.getD r.toNat []).getD c.toNat 0

/-- Translation of `Board._kings_distance` of `src/checkers/board.py`.
Python's `/` is float division; every value produced here is a small integer
or half-integer, on which binary floating point is exact, so `Rat` models the
computation exactly. -/
def kings_distance (b : Board) (piece : Piece) : Rat :=
  let opponent_pieces := get_all_pieces b piece.player.other
  let min_distance := opponent_pieces.foldl
    (fun md q =>
      let distance : Rat :=
        ((|piece.position.1 - q.position.1| : Int) : Rat) +
          ((|piece.position.2 - q.position.2| : Int) : Rat) / 2
      if distance < md then distance else md)
    (((BOARD_DIMENSION - 1 : Int)) : Rat)
  ((BOARD_DIMENSION : Int) : Rat) - min_distance

/-- Translation of `Board._evaluate_pieces_position` of
`src/checkers/board.py`: kings score their distance term, white men read the
positional table directly, black men read it flipped in both coordinates. -/
def evaluate_pieces_position (b : Board) (player : Player) : Rat :=
  (get_all_pieces b player).foldl
    (fun ev piece =>
      if player = Player.white then
        if piece.king then ev + kings_distance b piece
        else ev + ((posTable piece.position.1 piece.position.2 : Int) : Rat)
      else
        if piece.king then ev + kings_distance b piece
        else ev + ((posTable (BOARD_DIMENSION - 1 - piece.position.1)
                      (BOARD_DIMENSION - 1 - piece.position.2) : Int) : Rat))
    0

/-- Translation of `Board._evaluate_num_pieces` of `src/checkers/board.py`:
the material term, 10 points per piece and 10 extra per king, mirrored for
the opponent.  `Board.evaluate` line 80 calls this method but discards its
return value, so it never contributes to the returned evaluation. -/
def evaluate_num_pieces (b : Board) (player : Player) : Int :=
  if player = Player.black then
    b.num_black_pieces * 10 - b.num_white_pieces * 10 +
      b.num_black_kings * 10 - b.num_white_kings * 10
  else
    b.num_white_pieces * 10 - b.num_black_pieces * 10 +
      b.num_white_kings * 10 - b.num_black_kings * 10

/-- Translation of `Board.evaluate` of `src/checkers/board.py`: starting from
0, add the positional term for `player`, subtract it for the opponent, and
add the `random.randint(0, 1)` tie-break, passed in here as `noise`.  (The
`_evaluate_num_pieces` call on line 80 is discarded by the source — the
statement lacks the `evaluation +=` — so the material term is absent.) -/
def evaluate (b : Board) (player : Player) (noise : Int) : Rat :=
  0 + (evaluate_pieces_position b player - evaluate_pieces_position b player.other) +
    (noise : Rat)

/-! ## The minimax / alpha-beta bot (`src/bots/checkersbot.py`) -/

/-- Translation of the `Choice` class of `src/bots/checkersbot.py`: a move, a
value and the depth where the value was produced. -/
structure Choice where
  move : Option Move
  value : Rat
  depth : Nat

/-- The `for i in range(len(candidates))` loop of
`CheckersBot.alpha_beta_search`: apply each candidate to a fresh copy of the
board, recurse (through `recurse`, which carries `depth + 1`), retag the
result with the move just played, then either prune or fold it into
`max_choice`/`min_choice`.  The `Option.none` results model the only ways the
Python loop can fail (applying a move whose source cell is empty, or
dereferencing `.move` on a `None` sub-result), neither of which is reachable
for generated candidates. -/
def absLoop (recurse : Board → Bool → Player → Rat → Rat → Option Choice)
    (is_max : Bool) (cur : Player) :
    List Move → Board → Rat → Rat → Option Choice → Option Choice → Option Choice
  | [], _, _, _, maxC, minC => if is_max then maxC else minC
  | m :: rest, b, alpha, beta, maxC, minC =>
    match make_move b m with
    | Option.none => Option.none
    | some nb =>
      match recurse nb (!is_max) cur.other alpha beta with
      | Option.none => Option.none
      | some res0 =>
        let res : Choice := { res0 with move := last_move nb }
        if is_max then
          let alpha' := max res.value alpha
          if alpha' ≥ beta then some res
          else
            let maxC' := match maxC with
              | Option.none => some res
              | some c => if res.value > c.value then some res else maxC
            absLoop recurse is_max cur rest b alpha' beta maxC' minC
        else
          let beta' := min res.value beta
          if alpha ≥ beta' then some res
          else
            let minC' := match minC with
              | Option.none => some res
              | some c => if res.value < c.value then some res else minC
            absLoop recurse is_max cur rest b alpha beta' maxC minC'

/-- The leaf tests at the top of `CheckersBot.alpha_beta_search` of
`src/bots/checkersbot.py` for a bot with `self.player = pl` and
`self.depth = limit`: a board won by the bot is worth `1000 - depth`, one won
by the opponent `-1000 + depth`, a tie `0 + depth`, and at `depth ==
self.depth` the static evaluation; `Option.none` means none of the four early
returns fires and the search must recurse over the candidates. -/
def absLeaf (pl : Player) (limit : Nat) (noise : Int) (b : Board) (depth : Nat) :
    Option Choice :=
  match has_winner b with
  | Winner.winner w =>
    if w = pl then some ⟨last_move b, (1000 : Rat) - (depth : Rat), depth⟩
    else some ⟨last_move b, (-1000 : Rat) + (depth : Rat), depth⟩
  | Winner.tie => some ⟨last_move b, (0 : Rat) + (depth : Rat), depth⟩
  | Winner.noWinner =>
    if depth = limit then some ⟨last_move b, evaluate b pl noise, depth⟩
    else Option.none

/-- Translation of `CheckersBot.alpha_beta_search` of
`src/bots/checkersbot.py`: return the leaf answer when one of the four early
returns fires, otherwise recurse over all candidate moves of `cur` through
`absLoop`.  `fuel` equals `limit - depth` on every call reachable from
`select_move` (it decreases exactly when `depth` increases, and `depth =
limit` answers at the leaf first), so the `Option.none` answered when the
fuel runs out with no leaf answer is unreachable from `select_move`. -/
def absearch (pl : Player) (limit : Nat) (noise : Int) (fuel : Nat) (b : Board)
    (is_max : Bool) (cur : Player) (depth : Nat) (alpha beta : Rat) : Option Choice :=
  match fuel with
  | 0 => absLeaf pl limit noise b depth
  | fuel' + 1 =>
    match absLeaf pl limit noise b depth with
    | some c => some c
    | Option.none =>
      absLoop
        (fun nb im cu a bt => absearch pl limit noise fuel' nb im cu (depth + 1) a bt)
        is_max cur (get_all_valid_moves b cur) b alpha beta Option.none Option.none
termination_by structural fuel

/-- Translation of `CheckersBot.select_move` of `src/bots/checkersbot.py`:
run the search from depth 0 with `is_max = True`, alpha = −1000, beta = 1000,
and return the chosen move. -/
def select_move (player : Player) (depth : Nat) (b : Board) (noise : Int) : Option Move :=
  match absearch player depth noise depth b true player 0 (-1000) 1000 with
  | some c => c.move
  | Option.none => Option.none

/-- Counterexample for C7: on the fresh starting board — which has no winner
and seven legal white moves — the bot configured with depth 0 returns no move
at all (`board.last_move()` is `None` on a fresh game), not a legal move
maximizing the static evaluator over the one-ply successors. -/
theorem select_move_depth_zero_no_move :
    select_move Player.white 0 new_board 0 = Option.none ∧
    get_all_valid_moves new_board Player.white ≠ [] := by
  constructor
  · have h : has_winner new_board = Winner.noWinner := by decide
    show (match absLeaf Player.white 0 0 new_board 0 with
      | some c => c.move
      | Option.none => Option.none) = Option.none
    unfold absLeaf
    rw [h]
    simp [last_move, new_board]
  · decide

/-- C7 (amended): the bot configured with depth 0 performs no search and no
evaluator comparison at all: for every board, every side and every tie-break
noise, `select_move` returns the board's recorded last move (`None` on a
fresh game); selecting an evaluator-maximizing move over the one-ply
successors requires a positive configured depth. -/
theorem select_move_depth_zero (b : Board) (player : Player) (noise : Int) :
    select_move player 0 b noise = last_move b := by
  show (match absLeaf player 0 noise b 0 with
    | some c => c.move
    | Option.none => Option.none) = last_move b
  unfold absLeaf
  cases has_winner b with
  | winner w => by_cases hw : w = player <;> simp [hw]
  | tie => rfl
  | noWinner => simp

/-! ## The MCTS bot (`Board_State` of `src/checkers/board.py` and
`src/bots/mctsbot.py`) -/

/-- Translation of the `Board_State` node class of `src/checkers/board.py`: a
raw grid plus the move that produced it (`parentMove`, default `None`). -/
structure BState where
  board : Grid
  parentMove : Option Move

/-- Translation of `Board_State.is_terminal` of `src/checkers/board.py`: wrap
the grid in a fresh `Board` (recomputing the piece counts) and test the
truthiness of `has_winner` — a `Player` and the string `"Tie"` are truthy,
`None` is falsy. -/
def bstate_is_terminal (g : Grid) : Bool :=
  match has_winner (Board.ofGrid g) with
  | Winner.noWinner => false
  | _ => true

/-- Translation of `Board_State.reward` of `src/checkers/board.py`: 1 when
white has won, −1 when black has won, and 0 otherwise (a tie, or a game that
is not over). -/
def bstate_reward (g : Grid) : Int :=
  match has_winner (Board.ofGrid g) with
  | Winner.winner Player.white => 1
  | Winner.winner Player.black => -1
  | _ => 0

/-- Translation of `Board_State.find_random_child` of
`src/checkers/board.py`: play a random legal white move and, when the result
is not terminal, a random legal black reply; the returned node's
`parentMove` is the constructor default `None`.  The two `random.choice`
calls are modelled by the indices `r1`, `r2` reduced modulo the number of
options; `Option.none` models the `IndexError` that `random.choice` raises
on an empty option list. -/
def find_random_child (g : Grid) (r1 r2 : Nat) : Option BState :=
  let boardObj := Board.ofGrid g
  let options1 := get_all_valid_moves boardObj Player.white
  if options1.isEmpty then Option.none
  else
    match make_move boardObj (options1.getD (r1 % options1.length) default) with
    | Option.none => Option.none
    | some b2 =>
      if bstate_is_terminal b2.grid = false then
        let options2 := get_all_valid_moves b2 Player.black
        if options2.isEmpty then Option.none
        else
          match make_move b2 (options2.getD (r2 % options2.length) default) with
          | Option.none => Option.none
          | some b3 => some ⟨b3.grid, Option.none⟩
      else some ⟨b2.grid, Option.none⟩

/-- The value `MCTS.choose` of `src/bots/mctsbot.py` hands back to its
caller: the normal path returns the 2-tuple `(best child, optionsNQ)`, the
fallback path returns the bare `Board_State` from `find_random_child`, and a
terminal node raises `RuntimeError`. -/
inductive ChooseRes where
  | raised
  | randomChild (child : Option BState)
  | pair (best : Option BState) (stats : List (Int × Int))

/-- Python's `max(iterable, key=score)` over the children: the first element
of maximal key (the incumbent survives ties); `Option.none` models the
`ValueError` raised on an empty iterable.  The key is the average reward
`Q/N`, with `float("-inf")` (here `⊥`) for unvisited nodes. -/
def maxByScore (q n : BState → Int) : List BState → Option BState
  | [] => Option.none
  | x :: xs =>
    some (xs.foldl
      (fun best c =>
        let sb : WithBot Rat := if n best = 0 then ⊥ else ((q best : Rat) / (n best : Rat))
        let sc : WithBot Rat := if n c = 0 then ⊥ else ((q c : Rat) / (n c : Rat))
        if sb < sc then c else best)
      x)

/-- Translation of `MCTS.choose` of `src/bots/mctsbot.py`, with the tree's
`children` dict passed as a lookup (`Option.none` models `node not in
self.children`) and the `Q`/`N` default-dicts as functions; the iteration
order of a node's `set` of children is the order of the list the lookup
returns.  `optionsNQ` collects `(N, Q)` for exactly the visited children, in
iteration order, because the score function returns −inf before appending
when `N = 0`. -/
def mcts_choose (children : BState → Option (List BState)) (q n : BState → Int)
    (node : BState) (r1 r2 : Nat) : ChooseRes :=
  if bstate_is_terminal node.board then ChooseRes.raised
  else
    match children node with
    | Option.none => ChooseRes.randomChild (find_random_child node.board r1 r2)
    | some kids =>
      ChooseRes.pair (maxByScore q n kids)
        ((kids.filter (fun c => decide (n c ≠ 0))).map (fun c => (n c, q c)))

/-- Translation of `MCTSBot.select_move` of `src/bots/mctsbot.py` for a bot
configured with `rollouts = 0`: the rollout loop body never runs, so the
tree's `children` dict is empty and every `Q`/`N` is 0.  The line
`choice, optionsNQ = self.tree.choose(boardHash)` unpacks whatever `choose`
returned: unpacking the fallback's bare `Board_State` raises `TypeError`; on
the normal path the later `max(optionsNQ, ...)` raises `ValueError` when no
child was visited, and otherwise the bot returns `choice.parentMove`. -/
def mcts_select_move_no_rollouts (board : Board) (r1 r2 : Nat) :
    Except String (Option Move) :=
  match mcts_choose (fun _ => Option.none) (fun _ => 0) (fun _ => 0)
      ⟨board.grid, Option.none⟩ r1 r2 with
  | ChooseRes.pair (some best) stats =>
    if stats.isEmpty then Except.error "ValueError: max() arg is an empty sequence"
    else Except.ok best.parentMove
  | ChooseRes.pair Option.none _ => Except.error "ValueError: max() arg is an empty sequence"
  | ChooseRes.randomChild _ =>
    Except.error "TypeError: cannot unpack non-iterable Board_State object"
  | ChooseRes.raised => Except.error "RuntimeError: choose called on terminal node"

/-- C9 is a code bug: on the fresh starting board — not terminal, seven legal
white moves — a bot whose root was never expanded (e.g. configured with
`rollouts = 0`, so the rollout loop never runs) reaches `choose`'s fallback
branch, which returns a bare `Board_State` (with `parentMove = None`) while
the normal path returns a `(child, optionsNQ)` 2-tuple; `select_move`'s
tuple unpacking then raises `TypeError` instead of returning a random legal
move as a normal outcome. -/
theorem mcts_choose_fallback_crashes (r1 r2 : Nat) :
    mcts_select_move_no_rollouts new_board r1 r2 =
      Except.error "TypeError: cannot unpack non-iterable Board_State object" ∧
    get_all_valid_moves new_board Player.white ≠ [] := by
  constructor
  · have hterm : bstate_is_terminal new_board.grid = false := by decide
    simp [mcts_select_move_no_rollouts, mcts_choose, hterm]
  · decide

/-- The loop of `MCTS._backpropagate` of `src/bots/mctsbot.py` over the
already-reversed path, generic in the node type exactly as the Python is
duck-typed: increment `N` at the node, invert the running reward
(`1 - reward`) when the node is not terminal, then add the running reward to
`Q` and continue with the inverted reward. -/
def backpropGo {κ : Type} [DecidableEq κ] (isTerm : κ → Bool) :
    List κ → Int → (κ → Int) → (κ → Int) → (κ → Int) × (κ → Int)
  | [], _, q, n => (q, n)
  | node :: rest, reward, q, n =>
    let n' := fun k => if k = node then n k + 1 else n k
    let reward' := if isTerm node then reward else 1 - reward
    let q' := fun k => if k = node then q k + reward' else q k
    backpropGo isTerm rest reward' q' n'

/-- Translation of `MCTS._backpropagate` of `src/bots/mctsbot.py`:
`for node in reversed(path): ...`. -/
def backpropagate {κ : Type} [DecidableEq κ] (isTerm : κ → Bool) (path : List κ)
    (reward : Int) (q n : κ → Int) : (κ → Int) × (κ → Int) :=
  backpropGo isTerm path.reverse reward q n

/-- Any sequence of `do_rollout` calls, abstracted by what each contributes
to the tree statistics: each rollout backpropagates the path `_select`
visited with the reward `_simulate` produced, starting from the all-zero
`defaultdict(int)` statistics. -/
def runSteps {κ : Type} [DecidableEq κ] (isTerm : κ → Bool)
    (steps : List (List κ × Int)) : (κ → Int) × (κ → Int) :=
  steps.foldl (fun qn s => backpropagate isTerm s.1 s.2 qn.1 qn.2)
    ((fun _ => (0 : Int)), (fun _ => (0 : Int)))

/-- A grid on which black has already won: a lone black piece, white has no
pieces left. -/
def c8Grid : Grid := fun p =>
  if p = ((0 : Int), (1 : Int)) then some ⟨(0, 1), Player.black, false⟩ else Option.none

/-- Counterexample for C8: the first rollout on a terminal black-won root —
where `_select` returns `[root]`, `_expand` records no children and
`_simulate` immediately returns `Board_State.reward(root) = −1` —
backpropagates −1 into the root's statistics (a terminal node's reward is
not inverted), leaving `N = 1` and `Q = −1 < 0`: the claimed invariant
`0 ≤ Q ≤ N` fails because rewards are not bounded in [0, 1]. -/
theorem mcts_q_negative :
    bstate_is_terminal c8Grid = true ∧
    bstate_reward c8Grid = -1 ∧
    (runSteps (fun _ : Unit => bstate_is_terminal c8Grid)
        [([()], bstate_reward c8Grid)]).2 () = 1 ∧
    (runSteps (fun _ : Unit => bstate_is_terminal c8Grid)
        [([()], bstate_reward c8Grid)]).1 () < 0 := by decide

/-- The invariant the statistics actually maintain: every node's cumulative
reward is bounded by its visit count as `-N ≤ Q ≤ 2N` (which also forces
`N ≥ 0`). -/
def StatsInv {κ : Type} (q n : κ → Int) : Prop :=
  ∀ k, -(n k) ≤ q k ∧ q k ≤ 2 * n k

theorem backpropGo_n_mono {κ : Type} [DecidableEq κ] (isTerm : κ → Bool)
    (path : List κ) :
    ∀ (reward : Int) (q n : κ → Int) (k : κ),
      n k ≤ (backpropGo isTerm path reward q n).2 k := by
  induction path with
  | nil => intro reward q n k; exact le_refl _
  | cons node rest ih =>
    intro reward q n k
    simp only [backpropGo]
    refine le_trans ?_ (ih _ _ _ k)
    by_cases h : k = node <;> simp [h]

theorem backpropGo_n_mem {κ : Type} [DecidableEq κ] (isTerm : κ → Bool)
    (path : List κ) :
    ∀ (reward : Int) (q n : κ → Int) (k : κ), k ∈ path →
      n k + 1 ≤ (backpropGo isTerm path reward q n).2 k := by
  induction path with
  | nil => intro reward q n k hk; cases hk
  | cons node rest ih =>
    intro reward q n k hk
    simp only [backpropGo]
    rcases List.mem_cons.1 hk with h | h
    · subst h
      refine le_trans ?_ (backpropGo_n_mono isTerm rest _ _ _ k)
      simp
    · refine le_trans ?_ (ih _ _ _ k h)
      by_cases hkn : k = node <;> simp [hkn]

theorem backpropGo_inv {κ : Type} [DecidableEq κ] (isTerm : κ → Bool)
    (path : List κ) :
    ∀ (reward : Int) (q n : κ → Int), -1 ≤ reward → reward ≤ 2 →
      StatsInv q n →
      StatsInv (backpropGo isTerm path reward q n).1 (backpropGo isTerm path reward q n).2 := by
  induction path with
  | nil => intro reward q n _ _ h; exact h
  | cons node rest ih =>
    intro reward q n h1 h2 h
    simp only [backpropGo]
    have hr' : -1 ≤ (if isTerm node then reward else 1 - reward) ∧
        (if isTerm node then reward else 1 - reward) ≤ 2 := by
      split <;> omega
    refine ih _ _ _ hr'.1 hr'.2 ?_
    intro k
    obtain ⟨hl, hu⟩ := h k
    obtain ⟨hln, hun⟩ := h node
    by_cases hkn : k = node <;> simp [hkn] <;> omega

theorem runSteps_from_inv {κ : Type} [DecidableEq κ] (isTerm : κ → Bool)
    (steps : List (List κ × Int)) :
    ∀ (q n : κ → Int),
      (∀ s ∈ steps, s.2 = -1 ∨ s.2 = 0 ∨ s.2 = 1) → StatsInv q n →
      (StatsInv (steps.foldl (fun qn s => backpropagate isTerm s.1 s.2 qn.1 qn.2) (q, n)).1
         (steps.foldl (fun qn s => backpropagate isTerm s.1 s.2 qn.1 qn.2) (q, n)).2 ∧
       (∀ k, n k ≤ (steps.foldl (fun qn s => backpropagate isTerm s.1 s.2 qn.1 qn.2) (q, n)).2 k) ∧
       (∀ s ∈ steps, ∀ k ∈ s.1,
         1 ≤ (steps.foldl (fun qn s => backpropagate isTerm s.1 s.2 qn.1 qn.2) (q, n)).2 k)) := by
  induction steps with
  | nil =>
    intro q n _ hinv
    exact ⟨hinv, fun k => le_refl _, fun s hs => (List.not_mem_nil s hs).elim⟩
  | cons s rest ih =>
    intro q n hrw hinv
    have hn0 : ∀ k, 0 ≤ n k := by
      intro k; obtain ⟨hl, hu⟩ := hinv k; omega
    have hrs : -1 ≤ s.2 ∧ s.2 ≤ 2 := by
      rcases hrw s (List.mem_cons_self s rest) with h | h | h <;> omega
    have hinv1 : StatsInv (backpropagate isTerm s.1 s.2 q n).1
        (backpropagate isTerm s.1 s.2 q n).2 :=
      backpropGo_inv isTerm s.1.reverse s.2 q n hrs.1 hrs.2 hinv
    have hmono1 : ∀ k, n k ≤ (backpropagate isTerm s.1 s.2 q n).2 k :=
      fun k => backpropGo_n_mono isTerm s.1.reverse s.2 q n k
    have hmem1 : ∀ k ∈ s.1, n k + 1 ≤ (backpropagate isTerm s.1 s.2 q n).2 k := by
      intro k hk
      exact backpropGo_n_mem isTerm s.1.reverse s.2 q n k (List.mem_reverse.2 hk)
    have hrw' : ∀ s' ∈ rest, s'.2 = -1 ∨ s'.2 = 0 ∨ s'.2 = 1 :=
      fun s' hs' => hrw s' (List.mem_cons_of_mem s hs')
    obtain ⟨hfinv, hfmono, hfmem⟩ :=
      ih (backpropagate isTerm s.1 s.2 q n).1 (backpropagate isTerm s.1 s.2 q n).2 hrw' hinv1
    simp only [Prod.mk.eta] at hfinv hfmono hfmem
    simp only [List.foldl_cons]
    refine ⟨hfinv, ?_, ?_⟩
    · intro k
      exact le_trans (hmono1 k) (hfmono k)
    · intro s' hs' k hk
      rcases List.mem_cons.1 hs' with h | h
      · subst h
        have := hmem1 k hk
        have := hfmono k
        have := hn0 k
        omega
      · exact hfmem s' h k hk

/-- C8 (amended): `Board_State.reward` takes values in {−1, 0, 1} — it
returns −1, not a value in [0, 1], when black has won — and each
backpropagated running reward stays in [−1, 2] under the `1 − reward`
inversion.  Consequently, after any sequence of rollouts (each
backpropagating its visited path with a reward from {−1, 0, 1}: the
simulation's terminal reward or the watchdog's 0), every node visited by any
rollout satisfies `N ≥ 1`, and every node's statistics obey
`−N ≤ Q ≤ 2·N`; the claimed bounds `0 ≤ Q ≤ N` do not hold. -/
theorem mcts_stats_bounds {κ : Type} [DecidableEq κ] (isTerm : κ → Bool)
    (steps : List (List κ × Int))
    (hrewards : ∀ s ∈ steps, s.2 = -1 ∨ s.2 = 0 ∨ s.2 = 1) :
    (∀ g : Grid, bstate_reward g = -1 ∨ bstate_reward g = 0 ∨ bstate_reward g = 1) ∧
    (∀ k : κ, -((runSteps isTerm steps).2 k) ≤ (runSteps isTerm steps).1 k ∧
      (runSteps isTerm steps).1 k ≤ 2 * (runSteps isTerm steps).2 k) ∧
    (∀ s ∈ steps, ∀ k ∈ s.1, 1 ≤ (runSteps isTerm steps).2 k) := by
  have hzero : StatsInv (fun _ : κ => (0 : Int)) (fun _ : κ => (0 : Int)) := by
    intro k; constructor <;> simp
  obtain ⟨hfinv, _, hfmem⟩ := runSteps_from_inv isTerm steps _ _ hrewards hzero
  refine ⟨?_, hfinv, hfmem⟩
  intro g
  unfold bstate_reward
  cases has_winner (Board.ofGrid g) with
  | winner p => cases p <;> simp
  | tie => simp
  | noWinner => simp

/-- Witness for C8 (amended) on one concrete rollout: backpropagating the
single-node path of the terminal black-won root of `c8Grid` with its
simulation reward leaves the root with `N ≥ 1`, and the reward is one of
−1, 0, 1. -/
theorem mcts_stats_bounds_witness :
    (bstate_reward c8Grid = -1 ∨ bstate_reward c8Grid = 0 ∨ bstate_reward c8Grid = 1) ∧
    1 ≤ (runSteps (fun _ : Bool => bstate_is_terminal c8Grid)
        [([true], bstate_reward c8Grid)]).2 true := by
  have h := mcts_stats_bounds (fun _ : Bool => bstate_is_terminal c8Grid)
    [([true], bstate_reward c8Grid)] (by decide)
  exact ⟨h.1 c8Grid, h.2.2 ([true], bstate_reward c8Grid) (by decide) true (by decide)⟩

/-! ## Soundness of the move generator and preservation of the cached counts -/

/-- The position lies on the 8x8 board. -/
def inRangePos (p : Position) : Prop :=
  0 ≤ p.1 ∧ p.1 < BOARD_DIMENSION ∧ 0 ≤ p.2 ∧ p.2 < BOARD_DIMENSION

instance (p : Position) : Decidable (inRangePos p) := by
  unfold inRangePos; infer_instance

/-- Every piece stored in the grid records the cell it occupies. -/
def gridConsistent (g : Grid) : Prop :=
  ∀ pos q, g pos = some q → q.position = pos

/-- A piece listed as captured actually sits on the grid at its recorded
in-range position and belongs to the opponent. -/
def goodCap (g : Grid) (player : Player) (q : Piece) : Prop :=
  g q.position = some q ∧ q.player = player.other ∧ inRangePos q.position

/-- Soundness of one generated dictionary entry: the destination is an empty
in-range cell and the captured pieces are opponent pieces on the grid at
pairwise distinct positions. -/
def goodEntry (g : Grid) (player : Player) (e : Position × List Piece) : Prop :=
  g e.1 = Option.none ∧ inRangePos e.1 ∧ (∀ q ∈ e.2, goodCap g player q) ∧
    e.2.Pairwise (fun a c => a.position ≠ c.position)

theorem player_other_of_ne (x p : Player) (h : ¬ x = p) : x = p.other := by
  cases x <;> cases p <;> simp_all [Player.other]

theorem player_other_ne (p : Player) : p.other ≠ p := by
  cases p <;> simp [Player.other]

theorem position_ne_of_row_ne {a c : Piece} (h : a.position.1 ≠ c.position.1) :
    a.position ≠ c.position := fun e => h (by rw [e])

theorem dictInsert_mem (a : MoveDict) (k : Position) (v : List Piece) :
    ∀ e ∈ dictInsert a k v, e ∈ a ∨ e = (k, v) := by
  induction a with
  | nil =>
    intro e he
    simp only [dictInsert, List.mem_singleton] at he
    exact Or.inr he
  | cons kv rest ih =>
    obtain ⟨k0, v0⟩ := kv
    intro e he
    simp only [dictInsert] at he
    by_cases h : k0 = k
    · rw [if_pos h] at he
      rcases List.mem_cons.1 he with h' | h'
      · exact Or.inr (by rw [h', h])
      · exact Or.inl (List.mem_cons_of_mem _ h')
    · rw [if_neg h] at he
      rcases List.mem_cons.1 he with h' | h'
      · exact Or.inl (h' ▸ List.mem_cons_self _ _)
      · rcases ih e h' with h'' | h''
        · exact Or.inl (List.mem_cons_of_mem _ h'')
        · exact Or.inr h''

theorem dictUpdate_mem (b : MoveDict) :
    ∀ (a : MoveDict), ∀ e ∈ dictUpdate a b, e ∈ a ∨ e ∈ b := by
  induction b with
  | nil => intro a e he; exact Or.inl he
  | cons kv rest ih =>
    intro a e he
    have he' : e ∈ dictUpdate (dictInsert a kv.1 kv.2) rest := he
    rcases ih (dictInsert a kv.1 kv.2) e he' with h | h
    · rcases dictInsert_mem a kv.1 kv.2 e h with h' | h'
      · exact Or.inl h'
      · exact Or.inr (by rw [h', Prod.mk.eta]; exact List.mem_cons_self _ _)
    · exact Or.inr (List.mem_cons_of_mem _ h)

theorem rangeList_mem_one {start stop r : Int} (hr : r ∈ rangeList start stop 1) :
    start ≤ r ∧ r < stop := by
  unfold rangeList at hr
  rw [if_pos rfl] at hr
  simp only [List.mem_map, List.mem_range] at hr
  obtain ⟨k, hk, rfl⟩ := hr
  omega

theorem rangeList_mem_negone {start stop r : Int}
    (hr : r ∈ rangeList start stop (-1)) : stop < r ∧ r ≤ start := by
  unfold rangeList at hr
  rw [if_neg (by norm_num)] at hr
  simp only [List.mem_map, List.mem_range] at hr
  obtain ⟨k, hk, rfl⟩ := hr
  omega

theorem rangeList_pairwise (start stop step : Int) :
    (rangeList start stop step).Pairwise
      (fun a c => (step = 1 → a < c) ∧ (step = -1 → c < a)) := by
  unfold rangeList
  split
  · rw [List.pairwise_map]
    refine (List.pairwise_lt_range _).imp ?_
    intro a c hac
    constructor <;> intro <;> omega
  · rw [List.pairwise_map]
    refine (List.pairwise_lt_range _).imp ?_
    intro a c hac
    constructor <;> intro h
    · omega
    · omega

theorem board_dimension_eq : BOARD_DIMENSION = 8 := rfl

theorem mem_cells (p : Position) : p ∈ cells ↔ inRangePos p := by
  unfold cells inRangePos BOARD_DIMENSION
  simp only [List.mem_flatMap, List.mem_map, List.mem_range]
  constructor
  · rintro ⟨r, hr, c, hc, rfl⟩
    refine ⟨by omega, by omega, by omega, by omega⟩
  · intro h
    obtain ⟨p1, p2⟩ := p
    simp only at h
    refine ⟨p1.toNat, by omega, p2.toNat, by omega, ?_⟩
    rw [Int.toNat_of_nonneg h.1, Int.toNat_of_nonneg h.2.2.1]

/-- Row ordering maintained along a traversal: the piece `q` lies strictly
behind the row `r` in the direction of travel. -/
def rowBound (step : Int) (q : Piece) (r : Int) : Prop :=
  (step = 1 → q.position.1 < r) ∧ (step = -1 → r < q.position.1)

/-- Soundness of the traversal loop: under the stated bookkeeping about the
rows still to visit, the pieces already skipped and the piece jumped in the
previous iteration, every dictionary entry the loop produces is a
`goodEntry`: an empty in-range destination together with distinct opponent
pieces that are on the grid. -/
theorem travGo_sound (g : Grid) (player : Player) (hcons : gridConsistent g) :
    ∀ (fuel : Nat) (isLeft : Bool) (step : Int) (skipped : List Piece)
      (rows : List Int) (col : Int) (last : List Piece),
      (step = 1 ∨ step = -1) →
      (∀ r ∈ rows, 0 ≤ r ∧ r < BOARD_DIMENSION) →
      rows.Pairwise (fun a c => (step = 1 → a < c) ∧ (step = -1 → c < a)) →
      (isLeft = true → col < BOARD_DIMENSION) →
      (isLeft = false → 0 ≤ col) →
      (∀ q ∈ skipped, goodCap g player q ∧ ∀ r ∈ rows, rowBound step q r) →
      skipped.Pairwise (fun a c => a.position ≠ c.position) →
      (∀ q ∈ last, goodCap g player q ∧ (∀ r ∈ rows, rowBound step q r) ∧
        (∀ s ∈ skipped, s.position.1 ≠ q.position.1)) →
      last.Pairwise (fun a c => a.position ≠ c.position) →
      ∀ e ∈ travGo g player fuel isLeft step skipped rows col last,
        goodEntry g player e := by
  intro fuel
  induction fuel with
  | zero =>
    intro isLeft step skipped rows col last _ _ _ _ _ _ _ _ _ e he
    simp [travGo] at he
  | succ fuel ih =>
    intro isLeft step skipped rows col last hstep hrows hsorted hcolL hcolR hskip
      hskipPW hlast hlastPW e he
    cases rows with
    | nil => simp [travGo] at he
    | cons r rs =>
      simp only [travGo] at he
      by_cases hguard : (if isLeft = true then col < 0 else col ≥ BOARD_DIMENSION)
      · rw [if_pos hguard] at he
        simp at he
      · rw [if_neg hguard] at he
        have hcol : 0 ≤ col ∧ col < BOARD_DIMENSION := by
          cases isLeft with
          | true =>
            rw [if_pos rfl] at hguard
            exact ⟨by omega, hcolL rfl⟩
          | false =>
            rw [if_neg (by simp)] at hguard
            exact ⟨hcolR rfl, by omega⟩
        obtain ⟨hr0, hr8⟩ := hrows r (List.mem_cons_self r rs)
        have hrowsTail : ∀ r' ∈ rs, 0 ≤ r' ∧ r' < BOARD_DIMENSION :=
          fun r' hr' => hrows r' (List.mem_cons_of_mem r hr')
        cases hcur : g (r, col) with
        | none =>
          rw [hcur] at he
          by_cases hse : (skipped ≠ [] ∧ last = [])
          · rw [if_pos hse] at he
            simp at he
          · rw [if_neg hse] at he
            simp only [] at he
            have hgood1 : goodEntry g player
                ((r, col), if skipped ≠ [] then last ++ skipped else last) := by
              refine ⟨hcur, ⟨hr0, hr8, hcol.1, hcol.2⟩, ?_, ?_⟩
              · intro q hq
                by_cases hsk : skipped ≠ []
                · rw [if_pos hsk] at hq
                  rcases List.mem_append.1 hq with h | h
                  · exact (hlast q h).1
                  · exact (hskip q h).1
                · rw [if_neg hsk] at hq
                  exact (hlast q hq).1
              · by_cases hsk : skipped ≠ []
                · rw [if_pos hsk, List.pairwise_append]
                  refine ⟨hlastPW, hskipPW, ?_⟩
                  intro a ha c hc
                  exact (position_ne_of_row_ne ((hlast a ha).2.2 c hc)).symm
                · rw [if_neg hsk]
                  exact hlastPW
            by_cases hl : last ≠ []
            · rw [if_pos hl] at he
              have hlastFacts : ∀ q ∈ last, goodCap g player q ∧
                  ∀ r' ∈ rangeList (r + step)
                    (if step = -1 then max (r - 3) 0 else min (r + 3) BOARD_DIMENSION) step,
                    rowBound step q r' := by
                intro q hq
                refine ⟨(hlast q hq).1, ?_⟩
                intro r' hr'
                have hqr := (hlast q hq).2.1 r (List.mem_cons_self r rs)
                constructor
                · intro h1
                  subst h1
                  have h2 := rangeList_mem_one
                    (show r' ∈ rangeList (r + 1) (min (r + 3) BOARD_DIMENSION) 1 by
                      simpa using hr')
                  have h3 := hqr.1 rfl
                  omega
                · intro h1
                  subst h1
                  have h2 := rangeList_mem_negone
                    (show r' ∈ rangeList (r + -1) (max (r - 3) 0) (-1) by
                      simpa using hr')
                  have h3 := hqr.2 rfl
                  omega
              have hrows' : ∀ r' ∈ rangeList (r + step)
                  (if step = -1 then max (r - 3) 0 else min (r + 3) BOARD_DIMENSION) step,
                  0 ≤ r' ∧ r' < BOARD_DIMENSION := by
                intro r' hr'
                rcases hstep with h1 | h1 <;> subst h1
                · have h2 := rangeList_mem_one
                    (show r' ∈ rangeList (r + 1) (min (r + 3) BOARD_DIMENSION) 1 by
                      simpa using hr')
                  rw [board_dimension_eq] at h2 ⊢
                  omega
                · have h2 := rangeList_mem_negone
                    (show r' ∈ rangeList (r + -1) (max (r - 3) 0) (-1) by
                      simpa using hr')
                  rw [board_dimension_eq] at hr8 ⊢
                  omega
              rcases dictUpdate_mem _ _ e he with h | h
              · rcases dictUpdate_mem _ _ e h with h' | h'
                · rw [List.mem_singleton.1 h']
                  exact hgood1
                · refine ih true step last _ (col - 1) [] hstep hrows'
                    (rangeList_pairwise _ _ _)
                    (fun _ => by omega)
                    (fun hf => absurd hf (by simp))
                    hlastFacts hlastPW
                    (fun q hq => absurd hq (List.not_mem_nil q))
                    List.Pairwise.nil e h'
              · refine ih false step last _ (col + 1) [] hstep hrows'
                  (rangeList_pairwise _ _ _)
                  (fun hf => absurd hf (by simp))
                  (fun _ => by omega)
                  hlastFacts hlastPW
                  (fun q hq => absurd hq (List.not_mem_nil q))
                  List.Pairwise.nil e h
            · rw [if_neg hl] at he
              rw [List.mem_singleton.1 he]
              exact hgood1
        | some cur =>
          rw [hcur] at he
          dsimp only [] at he
          by_cases hcp : cur.player = player
          · rw [if_pos hcp] at he
            simp at he
          · rw [if_neg hcp] at he
            have hcurpos : cur.position = (r, col) := hcons (r, col) cur hcur
            refine ih isLeft step skipped rs (if isLeft = true then col - 1 else col + 1)
              [cur] hstep hrowsTail ((List.pairwise_cons.1 hsorted).2) ?_ ?_ ?_ hskipPW ?_ ?_ e he
            · intro h
              rw [h, if_pos rfl]
              have h2 := hcol.2
              omega
            · intro h
              rw [h, if_neg (by simp)]
              have h1 := hcol.1
              omega
            · intro q hq
              refine ⟨(hskip q hq).1, ?_⟩
              intro r' hr'
              exact (hskip q hq).2 r' (List.mem_cons_of_mem r hr')
            · intro q hq
              rw [List.mem_singleton.1 hq]
              refine ⟨⟨by rw [hcurpos]; exact hcur,
                player_other_of_ne cur.player player hcp,
                by rw [hcurpos]; exact ⟨hr0, hr8, hcol.1, hcol.2⟩⟩, ?_, ?_⟩
              · intro r' hr'
                have hlt := (List.pairwise_cons.1 hsorted).1 r' hr'
                constructor
                · intro h1
                  rw [hcurpos]
                  exact hlt.1 h1
                · intro h1
                  rw [hcurpos]
                  exact hlt.2 h1
              · intro s hs
                have hb := (hskip s hs).2 r (List.mem_cons_self r rs)
                rw [hcurpos]
                rcases hstep with h1 | h1 <;> subst h1
                · have := hb.1 rfl
                  omega
                · have := hb.2 rfl
                  omega
            · exact List.pairwise_singleton _ _

/-- Soundness of `_get_valid_moves`: on a consistent grid, every entry of the
valid-move dictionary of an in-range piece is a `goodEntry`. -/
theorem get_valid_moves_sound (b : Board) (piece : Piece)
    (hcons : gridConsistent b.grid) (hp : inRangePos piece.position) :
    ∀ e ∈ get_valid_moves b piece, goodEntry b.grid piece.player e := by
  obtain ⟨hp0, hp8, hpc0, hpc8⟩ := hp
  have hup : ∀ (isLeft : Bool) (col : Int),
      (isLeft = true → col < BOARD_DIMENSION) → (isLeft = false → 0 ≤ col) →
      ∀ e ∈ travGo b.grid piece.player 64 isLeft (-1) []
          (rangeList (piece.position.1 - 1) (max (piece.position.1 - 3) (-1)) (-1)) col [],
        goodEntry b.grid piece.player e := by
    intro isLeft col hl hr
    refine travGo_sound b.grid piece.player hcons 64 isLeft (-1) [] _ col []
      (Or.inr rfl) ?_ (rangeList_pairwise _ _ _) hl hr
      (fun q hq => absurd hq (List.not_mem_nil q))
      List.Pairwise.nil
      (fun q hq => absurd hq (List.not_mem_nil q))
      List.Pairwise.nil
    intro r hr'
    have h2 := rangeList_mem_negone hr'
    omega
  have hdown : ∀ (isLeft : Bool) (col : Int),
      (isLeft = true → col < BOARD_DIMENSION) → (isLeft = false → 0 ≤ col) →
      ∀ e ∈ travGo b.grid piece.player 64 isLeft 1 []
          (rangeList (piece.position.1 + 1) (min (piece.position.1 + 3) BOARD_DIMENSION) 1) col [],
        goodEntry b.grid piece.player e := by
    intro isLeft col hl hr
    refine travGo_sound b.grid piece.player hcons 64 isLeft 1 [] _ col []
      (Or.inl rfl) ?_ (rangeList_pairwise _ _ _) hl hr
      (fun q hq => absurd hq (List.not_mem_nil q))
      List.Pairwise.nil
      (fun q hq => absurd hq (List.not_mem_nil q))
      List.Pairwise.nil
    intro r hr'
    have h2 := rangeList_mem_one hr'
    omega
  intro e he
  unfold get_valid_moves at he
  simp only [] at he
  by_cases h2 : piece.player = Player.black ∨ piece.king = true
  · rw [if_pos h2] at he
    rcases dictUpdate_mem _ _ e he with h | h
    · rcases dictUpdate_mem _ _ e h with h' | h'
      · by_cases h1 : piece.player = Player.white ∨ piece.king = true
        · rw [if_pos h1] at h'
          rcases dictUpdate_mem _ _ e h' with h'' | h''
          · rcases dictUpdate_mem _ _ e h'' with h3 | h3
            · cases h3
            · exact hup true _ (fun _ => by omega) (fun hf => absurd hf (by simp)) e h3
          · exact hup false _ (fun hf => absurd hf (by simp)) (fun _ => by omega) e h''
        · rw [if_neg h1] at h'
          cases h'
      · exact hdown true _ (fun _ => by omega) (fun hf => absurd hf (by simp)) e h'
    · exact hdown false _ (fun hf => absurd hf (by simp)) (fun _ => by omega) e h
  · rw [if_neg h2] at he
    by_cases h1 : piece.player = Player.white ∨ piece.king = true
    · rw [if_pos h1] at he
      rcases dictUpdate_mem _ _ e he with h'' | h''
      · rcases dictUpdate_mem _ _ e h'' with h3 | h3
        · cases h3
        · exact hup true _ (fun _ => by omega) (fun hf => absurd hf (by simp)) e h3
      · exact hup false _ (fun hf => absurd hf (by simp)) (fun _ => by omega) e h''
    · rw [if_neg h1] at he
      cases he

/-- Membership in the returned move list implies membership in the generated
move list: the forced-capture filter only removes moves. -/
theorem get_all_valid_moves_subset (b : Board) (p : Player) :
    ∀ m ∈ get_all_valid_moves b p, m ∈ generatedMoves b p := by
  intro m hm
  have hm' : m ∈ (if (generatedMoves b p).any (fun m => decide (m.captured.length > 0)) then
      (generatedMoves b p).filter (fun m => decide (m.captured.length ≠ 0))
    else generatedMoves b p) := hm
  split at hm'
  · exact List.mem_of_mem_filter hm'
  · exact hm'

/-- Soundness of the generated move list: on a consistent grid, each move
starts from a cell holding a piece of the moving side and its destination and
captured list form a `goodEntry`. -/
theorem generatedMoves_sound (b : Board) (p : Player) (hcons : gridConsistent b.grid) :
    ∀ m ∈ generatedMoves b p,
      (∃ pc, b.grid m.src = some pc ∧ pc.player = p ∧ pc.position = m.src ∧
        inRangePos m.src) ∧
      goodEntry b.grid p (m.dest, m.captured) := by
  intro m hm
  unfold generatedMoves at hm
  rw [List.mem_flatMap] at hm
  obtain ⟨pc, hpc, hmm⟩ := hm
  rw [List.mem_map] at hmm
  obtain ⟨e, hee, rfl⟩ := hmm
  unfold get_all_pieces gridPieces at hpc
  rw [List.mem_filterMap] at hpc
  obtain ⟨pos, hpos, hmatch⟩ := hpc
  have hcell : b.grid pos = some pc ∧ pc.player = p := by
    cases hg : b.grid pos with
    | none => rw [hg] at hmatch; cases hmatch
    | some q =>
      rw [hg] at hmatch
      dsimp only [] at hmatch
      by_cases hqp : q.player = p
      · rw [if_pos hqp] at hmatch
        injection hmatch with h4
        subst h4
        exact ⟨rfl, hqp⟩
      · rw [if_neg hqp] at hmatch
        cases hmatch
  have hposeq : pc.position = pos := hcons pos pc hcell.1
  have hin : inRangePos pos := (mem_cells pos).1 hpos
  have hge := get_valid_moves_sound b pc hcons (hposeq ▸ hin) e hee
  refine ⟨⟨pc, ?_, hcell.2, rfl, ?_⟩, ?_⟩
  · show b.grid pc.position = some pc
    rw [hposeq]
    exact hcell.1
  · show inRangePos pc.position
    rw [hposeq]
    exact hin
  · rw [hcell.2] at hge
    exact hge

/-! ## Counting the grid -/

/-- The cell holds a piece of side `p`. -/
def isSide (p : Player) : Option Piece → Bool
  | some q => q.player = p
  | Option.none => false

/-- The cell holds a king of side `p`. -/
def isKing (p : Player) : Option Piece → Bool
  | some q => q.player = p && q.king
  | Option.none => false

/-- The number of cells of the board whose content satisfies `f`. -/
def cnt (g : Grid) (f : Option Piece → Bool) : Int :=
  ((cells.countP (fun c => f (g c)) : Nat) : Int)

theorem cells_nodup : cells.Nodup := by decide

theorem countP_congr_local {α : Type} (p q : α → Bool) (l : List α)
    (h : ∀ a ∈ l, p a = q a) : l.countP p = l.countP q := by
  induction l with
  | nil => rfl
  | cons a l ih =>
    simp only [List.countP_cons, h a (List.mem_cons_self a l),
      ih (fun x hx => h x (List.mem_cons_of_mem a hx))]

theorem countP_updateG (g : Grid) (pos : Position) (v : Option Piece)
    (f : Option Piece → Bool) (L : List Position) :
    L.Nodup → pos ∈ L →
    L.countP (fun c => f (updateG g pos v c)) + (if f (g pos) then 1 else 0) =
      L.countP (fun c => f (g c)) + (if f v then 1 else 0) := by
  induction L with
  | nil => intro _ h; cases h
  | cons c rest ih =>
    intro hnd hmem
    have hnd2 := List.nodup_cons.1 hnd
    rcases List.mem_cons.1 hmem with h | h
    · subst h
      have hrest : rest.countP (fun c => f (updateG g pos v c)) =
          rest.countP (fun c => f (g c)) := by
        apply countP_congr_local
        intro a ha
        have hne : a ≠ pos := fun e => hnd2.1 (e ▸ ha)
        simp [updateG, hne]
      rw [List.countP_cons, List.countP_cons, hrest]
      have hupd : updateG g pos v pos = v := by simp [updateG]
      rw [hupd]
      omega
    · have hne : c ≠ pos := fun e => hnd2.1 (e ▸ h)
      rw [List.countP_cons, List.countP_cons]
      have hc : updateG g pos v c = g c := by simp [updateG, hne]
      rw [hc]
      have := ih hnd2.2 h
      omega

theorem cnt_updateG (g : Grid) (pos : Position) (v : Option Piece)
    (f : Option Piece → Bool) (h : inRangePos pos) :
    cnt (updateG g pos v) f =
      cnt g f + (if f v then 1 else 0) - (if f (g pos) then 1 else 0) := by
  have hm : pos ∈ cells := (mem_cells pos).2 h
  have hq := countP_updateG g pos v f cells cells_nodup hm
  unfold cnt
  by_cases hv : f v <;> by_cases hg : f (g pos) <;>
    simp [hv, hg] at hq ⊢ <;> omega

theorem length_filterMap_eq_countP {α β : Type} (h : α → Option β) (L : List α) :
    (L.filterMap h).length = L.countP (fun a => (h a).isSome) := by
  induction L with
  | nil => rfl
  | cons a l ih => cases hh : h a <;> simp [List.filterMap_cons, hh, List.countP_cons, ih]

theorem gridPieces_length (g : Grid) (p : Player) :
    ((gridPieces g p).length : Int) = cnt g (isSide p) := by
  unfold gridPieces cnt
  rw [length_filterMap_eq_countP]
  congr 1
  apply countP_congr_local
  intro c _
  cases hg : g c with
  | none => simp [isSide]
  | some q => by_cases hq : q.player = p <;> simp [isSide, hq]

/-- The board invariant: the four cached counters agree with a live scan of
the grid, and every piece records the cell it occupies. -/
def Inv (b : Board) : Prop :=
  b.num_white_pieces = cnt b.grid (isSide Player.white) ∧
  b.num_black_pieces = cnt b.grid (isSide Player.black) ∧
  b.num_white_kings = cnt b.grid (isKing Player.white) ∧
  b.num_black_kings = cnt b.grid (isKing Player.black) ∧
  gridConsistent b.grid

theorem updateG_eval (g : Grid) (pos p : Position) (v : Option Piece) :
    updateG g pos v p = if p = pos then v else g p := rfl

theorem gridConsistent_update_none (g : Grid) (pos : Position)
    (h : gridConsistent g) : gridConsistent (updateG g pos Option.none) := by
  intro pos' q hq
  unfold updateG at hq
  by_cases hp : pos' = pos
  · rw [if_pos hp] at hq; cases hq
  · rw [if_neg hp] at hq; exact h pos' q hq

theorem removeOne_keeps (b : Board) (q : Piece) (hInv : Inv b)
    (hq : b.grid q.position = some q) (hr : inRangePos q.position) :
    Inv (removeOne b q) ∧
    (removeOne b q).grid = updateG b.grid q.position Option.none ∧
    (removeOne b q).moves = b.moves := by
  obtain ⟨hw, hb, hwk, hbk, hcons⟩ := hInv
  have hcnt : ∀ f : Option Piece → Bool,
      cnt (updateG b.grid q.position Option.none) f =
        cnt b.grid f + (if f Option.none then 1 else 0) - (if f (some q) then 1 else 0) := by
    intro f
    rw [cnt_updateG b.grid q.position Option.none f hr, hq]
  have hconsU := gridConsistent_update_none b.grid q.position hcons
  unfold removeOne
  by_cases hqw : q.player = Player.white
  · rw [if_pos hqw]
    refine ⟨⟨?_, ?_, ?_, ?_, hconsU⟩, rfl, rfl⟩
    · show b.num_white_pieces - 1 =
        cnt (updateG b.grid q.position Option.none) (isSide Player.white)
      rw [hcnt, ← hw]
      simp [isSide, hqw]
    · show b.num_black_pieces =
        cnt (updateG b.grid q.position Option.none) (isSide Player.black)
      rw [hcnt, ← hb]
      simp [isSide, hqw]
    · show (if q.king then b.num_white_kings - 1 else b.num_white_kings) =
        cnt (updateG b.grid q.position Option.none) (isKing Player.white)
      rw [hcnt, ← hwk]
      by_cases hk : q.king <;> simp [isKing, hqw, hk]
    · show b.num_black_kings =
        cnt (updateG b.grid q.position Option.none) (isKing Player.black)
      rw [hcnt, ← hbk]
      simp [isKing, hqw]
  · rw [if_neg hqw]
    have hqb : q.player = Player.black := player_other_of_ne q.player Player.white hqw
    refine ⟨⟨?_, ?_, ?_, ?_, hconsU⟩, rfl, rfl⟩
    · show b.num_white_pieces =
        cnt (updateG b.grid q.position Option.none) (isSide Player.white)
      rw [hcnt, ← hw]
      simp [isSide, hqb]
    · show b.num_black_pieces - 1 =
        cnt (updateG b.grid q.position Option.none) (isSide Player.black)
      rw [hcnt, ← hb]
      simp [isSide, hqb]
    · show b.num_white_kings =
        cnt (updateG b.grid q.position Option.none) (isKing Player.white)
      rw [hcnt, ← hwk]
      simp [isKing, hqb]
    · show (if q.king then b.num_black_kings - 1 else b.num_black_kings) =
        cnt (updateG b.grid q.position Option.none) (isKing Player.black)
      rw [hcnt, ← hbk]
      by_cases hk : q.king <;> simp [isKing, hqb, hk]

theorem removeAll_keeps (ps : List Piece) :
    ∀ (b : Board), Inv b →
    (∀ q ∈ ps, b.grid q.position = some q ∧ inRangePos q.position) →
    ps.Pairwise (fun a c => a.position ≠ c.position) →
    Inv (removeAll b ps) ∧
    (∀ pos, (∀ q ∈ ps, pos ≠ q.position) → (removeAll b ps).grid pos = b.grid pos) ∧
    (removeAll b ps).moves = b.moves := by
  induction ps with
  | nil =>
    intro b hInv _ _
    exact ⟨hInv, fun pos _ => rfl, rfl⟩
  | cons q ps ih =>
    intro b hInv hon hpw
    obtain ⟨hq, hr⟩ := hon q (List.mem_cons_self q ps)
    obtain ⟨hInv1, hgrid1, hmoves1⟩ := removeOne_keeps b q hInv hq hr
    have hon' : ∀ q' ∈ ps,
        (removeOne b q).grid q'.position = some q' ∧ inRangePos q'.position := by
      intro q' hq'
      have hne : q.position ≠ q'.position := (List.pairwise_cons.1 hpw).1 q' hq'
      rw [hgrid1]
      refine ⟨?_, (hon q' (List.mem_cons_of_mem q hq')).2⟩
      unfold updateG
      rw [if_neg (fun e : q'.position = q.position => hne e.symm)]
      exact (hon q' (List.mem_cons_of_mem q hq')).1
    obtain ⟨hInv2, hgrid2, hmoves2⟩ :=
      ih (removeOne b q) hInv1 hon' (List.pairwise_cons.1 hpw).2
    have hstep : removeAll b (q :: ps) = removeAll (removeOne b q) ps := rfl
    refine ⟨hstep ▸ hInv2, ?_, ?_⟩
    · intro pos hpos
      rw [hstep, hgrid2 pos (fun q' h => hpos q' (List.mem_cons_of_mem q h)), hgrid1]
      unfold updateG
      rw [if_neg (hpos q (List.mem_cons_self q ps))]
    · rw [hstep, hmoves2, hmoves1]

/-- Applying a move produced by `get_all_valid_moves` to a board satisfying
the invariant yields a board satisfying the invariant: the piece relocation
leaves every count unchanged, each removed capture decrements exactly the
counter of the cell it clears, and a promotion adds one king to the grid and
one to the matching counter. -/
theorem make_move_keeps_inv (b : Board) (p : Player) (m : Move) (b' : Board)
    (hInv : Inv b) (hm : m ∈ get_all_valid_moves b p)
    (ha : make_move b m = some b') : Inv b' := by
  have hcons : gridConsistent b.grid := hInv.2.2.2.2
  obtain ⟨⟨pc, hsrc, hpcp, hpcpos, hsrcin⟩, hgood⟩ :=
    generatedMoves_sound b p hcons m (get_all_valid_moves_subset b p m hm)
  have hdest : b.grid m.dest = Option.none := hgood.1
  have hdestin : inRangePos m.dest := hgood.2.1
  have hcaps : ∀ q ∈ m.captured, goodCap b.grid p q := hgood.2.2.1
  have hcapsPW : m.captured.Pairwise (fun a c => a.position ≠ c.position) := hgood.2.2.2
  have hsrcpc : b.grid pc.position = some pc := by rw [hpcpos]; exact hsrc
  have hpcin : inRangePos pc.position := by rw [hpcpos]; exact hsrcin
  have hds : m.dest ≠ pc.position := by
    intro e
    rw [e, hsrcpc] at hdest
    cases hdest
  -- the capture cells are neither the source nor the destination
  have hcapsrc : ∀ q ∈ m.captured, q.position ≠ pc.position := by
    intro q hq e
    have h1 := (hcaps q hq).1
    rw [e, hsrcpc] at h1
    injection h1 with h1
    have h2 : q.player = pc.player := by rw [h1]
    rw [(hcaps q hq).2.1, hpcp] at h2
    exact player_other_ne p h2
  have hcapdest : ∀ q ∈ m.captured, m.dest ≠ q.position := by
    intro q hq e
    have h1 := (hcaps q hq).1
    rw [← e, hdest] at h1
    cases h1
  -- grid facts for the relocation
  have hg1dest : updateG b.grid pc.position Option.none m.dest = Option.none := by
    unfold updateG
    rw [if_neg hds]
    exact hdest
  have hcnt2 : ∀ f : Option Piece → Bool, f Option.none = false →
      f (some { pc with position := m.dest }) = f (some pc) →
      cnt (updateG (updateG b.grid pc.position Option.none) m.dest
        (some { pc with position := m.dest })) f = cnt b.grid f := by
    intro f hfn hfm
    rw [cnt_updateG _ m.dest _ f hdestin, hg1dest,
      cnt_updateG b.grid pc.position Option.none f hpcin, hsrcpc, hfn, hfm]
    omega
  have hcons2 : gridConsistent (updateG (updateG b.grid pc.position Option.none) m.dest
      (some { pc with position := m.dest })) := by
    intro pos q hq
    unfold updateG at hq
    by_cases h1 : pos = m.dest
    · rw [if_pos h1] at hq
      injection hq with hq
      rw [← hq, h1]
    · rw [if_neg h1] at hq
      by_cases h2 : pos = pc.position
      · rw [if_pos h2] at hq
        cases hq
      · rw [if_neg h2] at hq
        exact hcons pos q hq
  have hInvMid : Inv { b with
      grid := (updateG (updateG b.grid pc.position Option.none) m.dest
        (some { pc with position := m.dest })) } := by
    have c1 := hcnt2 (isSide Player.white) rfl rfl
    have c2 := hcnt2 (isSide Player.black) rfl rfl
    have c3 := hcnt2 (isKing Player.white) rfl rfl
    have c4 := hcnt2 (isKing Player.black) rfl rfl
    exact ⟨by rw [c1]; exact hInv.1, by rw [c2]; exact hInv.2.1,
      by rw [c3]; exact hInv.2.2.1, by rw [c4]; exact hInv.2.2.2.1, hcons2⟩
  have hcapsMid : ∀ q ∈ m.captured,
      (updateG (updateG b.grid pc.position Option.none) m.dest
        (some { pc with position := m.dest })) q.position = some q ∧
      inRangePos q.position := by
    intro q hq
    refine ⟨?_, (hcaps q hq).2.2⟩
    unfold updateG
    rw [if_neg (fun e : q.position = m.dest => hcapdest q hq e.symm),
      if_neg (hcapsrc q hq)]
    exact (hcaps q hq).1
  obtain ⟨hInv2, hgrid2, _⟩ := removeAll_keeps m.captured
    { b with grid := (updateG (updateG b.grid pc.position Option.none) m.dest
        (some { pc with position := m.dest })) } hInvMid hcapsMid hcapsPW
  have hb2dest : (removeAll { b with
      grid := (updateG (updateG b.grid pc.position Option.none) m.dest
        (some { pc with position := m.dest })) } m.captured).grid m.dest =
      some { pc with position := m.dest } := by
    rw [hgrid2 m.dest (hcapdest)]
    show updateG (updateG b.grid pc.position Option.none) m.dest
      (some { pc with position := m.dest }) m.dest = _
    unfold updateG
    rw [if_pos rfl]
  -- unfold make_move and consume the match
  unfold make_move at ha
  rw [show get_piece b m.src = some pc from hsrc] at ha
  dsimp only [] at ha
  injection ha with ha
  subst ha
  -- the final `moves` update does not affect the invariant; case on promotion
  by_cases hc1 : pc.player = Player.black ∧ m.dest.1 = BOARD_DIMENSION - 1 ∧ pc.king = false
  · show Inv _
    rw [if_pos hc1, if_pos hb2dest]
    obtain ⟨hw2, hb2, hwk2, hbk2, hcons3⟩ := hInv2
    have hcntK : ∀ f : Option Piece → Bool,
        f (some { pc with position := m.dest, king := true }) =
          f (some { pc with position := m.dest }) →
        cnt (updateG (removeAll { b with
            grid := (updateG (updateG b.grid pc.position Option.none) m.dest
              (some { pc with position := m.dest })) } m.captured).grid m.dest
          (some { pc with position := m.dest, king := true })) f =
          cnt (removeAll { b with
            grid := (updateG (updateG b.grid pc.position Option.none) m.dest
              (some { pc with position := m.dest })) } m.captured).grid f := by
      intro f hfm
      rw [cnt_updateG _ m.dest _ f hdestin, hb2dest, hfm]
      omega
    refine ⟨?_, ?_, ?_, ?_, ?_⟩
    · rw [hcntK (isSide Player.white) rfl]
      exact hw2
    · rw [hcntK (isSide Player.black) rfl]
      exact hb2
    · show (removeAll _ m.captured).num_white_kings = _
      have hwkK : cnt (updateG (removeAll { b with
          grid := (updateG (updateG b.grid pc.position Option.none) m.dest
            (some { pc with position := m.dest })) } m.captured).grid m.dest
          (some { pc with position := m.dest, king := true })) (isKing Player.white) =
          cnt (removeAll { b with
            grid := (updateG (updateG b.grid pc.position Option.none) m.dest
              (some { pc with position := m.dest })) } m.captured).grid (isKing Player.white) := by
        apply hcntK
        simp [isKing, hc1.1]
      rw [hwkK]
      exact hwk2
    · show (removeAll _ m.captured).num_black_kings + 1 = _
      rw [cnt_updateG _ m.dest _ (isKing Player.black) hdestin, hb2dest]
      have h5 : isKing Player.black (some { pc with position := m.dest, king := true }) = true := by
        simp [isKing, hc1.1]
      have h6 : isKing Player.black (some { pc with position := m.dest }) = false := by
        simp [isKing, hc1.2.2]
      rw [h5, h6, hbk2]
      norm_num
    · dsimp only []
      intro pos q hq
      rw [updateG_eval] at hq
      by_cases h1 : pos = m.dest
      · rw [if_pos h1] at hq
        injection hq with hq
        rw [← hq, h1]
      · rw [if_neg h1] at hq
        exact hcons3 pos q hq
  · rw [if_neg hc1]
    by_cases hc2 : pc.player = Player.white ∧ m.dest.1 = 0 ∧ pc.king = false
    · show Inv _
      rw [if_pos hc2, if_pos hb2dest]
      obtain ⟨hw2, hb2, hwk2, hbk2, hcons3⟩ := hInv2
      have hcntK : ∀ f : Option Piece → Bool,
          f (some { pc with position := m.dest, king := true }) =
            f (some { pc with position := m.dest }) →
          cnt (updateG (removeAll { b with
              grid := (updateG (updateG b.grid pc.position Option.none) m.dest
                (some { pc with position := m.dest })) } m.captured).grid m.dest
            (some { pc with position := m.dest, king := true })) f =
            cnt (removeAll { b with
              grid := (updateG (updateG b.grid pc.position Option.none) m.dest
                (some { pc with position := m.dest })) } m.captured).grid f := by
        intro f hfm
        rw [cnt_updateG _ m.dest _ f hdestin, hb2dest, hfm]
        omega
      refine ⟨?_, ?_, ?_, ?_, ?_⟩
      · rw [hcntK (isSide Player.white) rfl]
        exact hw2
      · rw [hcntK (isSide Player.black) rfl]
        exact hb2
      · show (removeAll _ m.captured).num_white_kings + 1 = _
        rw [cnt_updateG _ m.dest _ (isKing Player.white) hdestin, hb2dest]
        have h5 : isKing Player.white (some { pc with position := m.dest, king := true }) = true := by
          simp [isKing, hc2.1]
        have h6 : isKing Player.white (some { pc with position := m.dest }) = false := by
          simp [isKing, hc2.2.2]
        rw [h5, h6, hwk2]
        norm_num
      · show (removeAll _ m.captured).num_black_kings = _
        have hbkK : cnt (updateG (removeAll { b with
            grid := (updateG (updateG b.grid pc.position Option.none) m.dest
              (some { pc with position := m.dest })) } m.captured).grid m.dest
            (some { pc with position := m.dest, king := true })) (isKing Player.black) =
            cnt (removeAll { b with
              grid := (updateG (updateG b.grid pc.position Option.none) m.dest
                (some { pc with position := m.dest })) } m.captured).grid (isKing Player.black) := by
          apply hcntK
          simp [isKing, hc2.1]
        rw [hbkK]
        exact hbk2
      · dsimp only []
        intro pos q hq
        rw [updateG_eval] at hq
        by_cases h1 : pos = m.dest
        · rw [if_pos h1] at hq
          injection hq with hq
          rw [← hq, h1]
        · rw [if_neg h1] at hq
          exact hcons3 pos q hq
    · rw [if_neg hc2]
      exact hInv2

/-- Boards reachable from the fresh starting board by legal moves. -/
inductive Reachable : Board → Prop where
  | init : Reachable new_board
  | step (b : Board) (p : Player) (m : Move) (b' : Board) :
      Reachable b → m ∈ get_all_valid_moves b p → make_move b m = some b' → Reachable b'

theorem initial_grid_consistent : gridConsistent initialGrid := by
  intro pos q hq
  unfold initialGrid at hq
  split_ifs at hq <;> (injection hq with hq; rw [← hq])

theorem new_board_inv : Inv new_board := by
  refine ⟨?_, ?_, ?_, ?_, initial_grid_consistent⟩
  · exact gridPieces_length initialGrid Player.white
  · exact gridPieces_length initialGrid Player.black
  · show (0 : Int) = cnt initialGrid (isKing Player.white)
    decide
  · show (0 : Int) = cnt initialGrid (isKing Player.black)
    decide

theorem reachable_inv (b : Board) (h : Reachable b) : Inv b := by
  induction h with
  | init => exact new_board_inv
  | step b p m b' _ hm ha ih => exact make_move_keeps_inv b p m b' ih hm ha

/-- C3: for every board reachable from the starting position by legal moves,
and every legal move for either side, the board `make_move` produces has
cached per-side piece counts equal to the number of grid cells holding a
piece of that side, and cached king counts equal to the number of kings of
that side on the grid. -/
theorem counts_match_after_make_move (b : Board) (p : Player) (m : Move) (b' : Board)
    (hreach : Reachable b) (hm : m ∈ get_all_valid_moves b p)
    (ha : make_move b m = some b') :
    b'.num_white_pieces = ((get_all_pieces b' Player.white).length : Int) ∧
    b'.num_black_pieces = ((get_all_pieces b' Player.black).length : Int) ∧
    b'.num_white_kings = cnt b'.grid (isKing Player.white) ∧
    b'.num_black_kings = cnt b'.grid (isKing Player.black) := by
  obtain ⟨h1, h2, h3, h4, _⟩ := make_move_keeps_inv b p m b' (reachable_inv b hreach) hm ha
  refine ⟨?_, ?_, h3, h4⟩
  · rw [h1]
    exact (gridPieces_length b'.grid Player.white).symm
  · rw [h2]
    exact (gridPieces_length b'.grid Player.black).symm

/-- The first legal white move on the fresh board. -/
def m0 : Move := (get_all_valid_moves new_board Player.white).getD 0 default

/-- Witness for C3: applying the first legal white move to the starting board
succeeds, and the resulting cached piece counts equal the grid scans. -/
theorem counts_match_after_make_move_witness :
    (make_move new_board m0).isSome = true ∧
    (make_move new_board m0).elim True (fun b' =>
      b'.num_white_pieces = ((get_all_pieces b' Player.white).length : Int) ∧
      b'.num_black_pieces = ((get_all_pieces b' Player.black).length : Int)) := by
  constructor
  · decide
  · cases h : make_move new_board m0 with
    | none => trivial
    | some b' =>
      have hh := counts_match_after_make_move new_board Player.white m0 b' Reachable.init
        (by decide) h
      exact ⟨hh.1, hh.2.1⟩

end Checkers
